import Mathlib

/-!
# Cygwin `dlfcn.cc`: name resolution and module identity

A shallow embedding of `winsup/cygwin/dlfcn.cc`.

* C strings are `List Char` holding the characters before the terminating NUL.
* Pointers into a string are offsets (`Nat`) into the list.
* Module handles and symbol addresses are `Nat`, with `0` for `NULL`.
* Everything that is not defined in `dlfcn.cc` itself (the Win32 loader, `path_conv`,
  the mount table, `errno`) is a field of the structure `Host`, acting on an abstract
  operating-system state `σ`.  Every call to such a collaborator is recorded in a trace.
* The per-thread cells `_my_tls.locals.dl_error` and `_my_tls.locals.dl_buffer` are
  explicit fields of the thread state.
-/

namespace Dlfcn

/-! ## C strings -/

/-- The terminating byte of a C string. -/
def NUL : Char := Char.ofNat 0

/-- The Windows path separator (backslash). -/
def BACKSLASH : Char := Char.ofNat 92

/-- Reading a buffer as a C string: the characters before the first NUL. -/
def cstr (buf : List Char) : List Char := buf.takeWhile (fun c => c != NUL)

/-- Test `strncmp (a, b, n) == 0` on two C strings. -/
def strncmp_eq (a b : List Char) (n : Nat) : Bool := a.take n == b.take n

/-- Test `strcmp (a, b) == 0` on two C strings. -/
def strcmp_eq (a b : List Char) : Bool := a == b

/-- Offset of the last occurrence of `c` in `s` (`strrchr`, `wcsrchr`), `none` for `NULL`. -/
def strrchr : List Char → Char → Option Nat
  | [], _ => none
  | x :: xs, c =>
    match strrchr xs c with
    | some i => some (i + 1)
    | none => if x = c then some 0 else none

/-! ## `pathfinder::basenamelist` -/

/-- Modelled from the spec: a member of `pathfinder::basenamelist` (`pathfinder.h` and
`vstrlist.h` are not part of the sources at hand).  A candidate is a byte buffer of
`bufferlength + 1` bytes holding a C string of `stringlength` characters; `dlfcn.cc` uses
`buffer ()`, `stringlength ()` and `string ()` of it. -/
structure member where
  buffer : List Char
  stringlength : Nat
  bufferlength : Nat
deriving DecidableEq

/-- The text of a candidate, `bn->string ()`. -/
def member.string (m : member) : List Char := cstr m.buffer

/-- Concatenation of the parts handed to `appendv`, each part limited to its length. -/
def concat_parts : List (List Char × Nat) → List Char
  | [] => []
  | (part, partlen) :: parts => part.take partlen ++ concat_parts parts

/-- Sum of the part lengths handed to `appendv`: the space reserved for the string. -/
def sum_partlens : List (List Char × Nat) → Nat
  | [] => 0
  | (_, partlen) :: parts => partlen + sum_partlens parts

/-- Modelled from the spec: construction of a list member from `(part, partlen)` pairs.
The buffer reserves the sum of the part lengths plus the terminator, holds the
concatenated parts and is zero-filled behind them. -/
def member.create (parts : List (List Char × Nat)) : member :=
  { buffer := concat_parts parts ++
      List.replicate (sum_partlens parts + 1 - (concat_parts parts).length) NUL,
    stringlength := (concat_parts parts).length,
    bufferlength := sum_partlens parts }

/-- Modelled from the spec: `basenamelist::appendv (part0, part0len, ..., NULL)` appends one
candidate, the concatenation of the parts, at the end of the list. -/
def appendv (l : List member) (parts : List (List Char × Nat)) : List member :=
  l ++ [member.create parts]

/-! ## `spot_basename` and `collect_basenames` -/

/-- Result of `spot_basename`: `basename` is given by its offset into `name`. -/
structure spotted where
  basename_off : Nat
  baselen : Nat
  have_dir : Bool
deriving DecidableEq

/-- Identify basename and baselen within name, return true if there is a dir in name. -/
def spot_basename (name : List Char) : spotted :=
  let off := match strrchr name '/' with
    | some i => i + 1
    | none => 0
  { basename_off := off,
    baselen := name.length - off,
    have_dir := decide (off > 0) }

/-- The loop `while (--suffix >= basename) if (*suffix == '.') break;` started with
`suffix = basename + n`: the offset of the last `.` below `n`, `none` when the loop runs
below `basename`. -/
def find_suffix (basename : List Char) : Nat → Option Nat
  | 0 => none
  | i + 1 => if basename.getD i NUL = '.' then some i else find_suffix basename i

/-- The string `".so"`. -/
def dot_so : List Char := ['.', 's', 'o']

/-- The string `".dll"`. -/
def dot_dll : List Char := ['.', 'd', 'l', 'l']

/-- The string `"lib"`. -/
def str_lib : List Char := ['l', 'i', 'b']

/-- The string `"cyg"`. -/
def str_cyg : List Char := ['c', 'y', 'g']

/-- The test `suffixlen == 3 && !strncmp (suffix, ".so", 3)` of `collect_basenames`. -/
def has_so_suffix (basename : List Char) (baselen : Nat) : Bool :=
  match find_suffix basename baselen with
  | some i => decide (baselen - i = 3) && strncmp_eq (basename.drop i) dot_so 3
  | none => false

/-- Setup basenames using basename and baselen, return true if basenames do have some
suffix.  `basename` is the C string at the pointer, `baselen` the length `dlopen` passes
(the length of that string). -/
def collect_basenames (basenames : List member) (basename : List Char) (baselen : Nat) :
    List member × Bool :=
  let suffix := find_suffix basename baselen
  let is_so := has_so_suffix basename baselen
  let basenames1 := if is_so then appendv basenames [(basename, baselen)] else basenames
  let baselen1 := if is_so then baselen - 3 else baselen
  let ext : List Char := if is_so then dot_dll else []
  let extlen : Nat := if is_so then 4 else if suffix.isSome then 0 else 1
  let basenames2 :=
    if strncmp_eq basename str_lib 3 then
      appendv basenames1 [(str_cyg, 3), (basename.drop 3, baselen1 - 3), (ext, extlen)]
    else basenames1
  (appendv basenames2 [(basename, baselen1), (ext, extlen)], suffix.isSome)

/-! ## Collaborators -/

/-- The observable part of a `path_conv` object after `check`. -/
structure path_conv where
  wide_win32_path : Option (List Char)
  error : Nat
  file_exists : Bool
  isdir : Bool
  issymlink : Bool
deriving DecidableEq

/-- A default-constructed `path_conv`. -/
def path_conv.init : path_conv :=
  { wide_win32_path := none, error := 0, file_exists := false, isdir := false,
    issymlink := false }

/-- The two criteria `dlopen` hands to `pathfinder::find`. -/
inductive criterion where
  | loaded
  | exists_and_not_dir
deriving DecidableEq

/-- Calls to collaborators, as recorded in the trace. -/
inductive Call where
  | GetModuleHandle
  | GetModuleHandleExA (flags : Nat) (name : List Char)
  | GetModuleHandleExW (flags : Nat) (wpath : List Char)
  | LoadLibraryW (wpath : List Char)
  | FreeLibrary (handle : Nat)
  | GetProcAddress (handle : Nat) (name : List Char)
  | RtlCreateQueryDebugBuffer
  | RtlQueryProcessDebugInformation
  | RtlDestroyQueryDebugBuffer
  | path_conv_check (name : List Char) (opt : Nat)
  | conv_to_posix_path (wpath : List Char)
  | add_searchdir (dir : List Char)
  | add_envsearchpath (var : List Char)
  | pathfinder_find (c : criterion)
deriving DecidableEq

/-- Is the call the native load? -/
def Call.isNativeLoad : Call → Bool
  | .LoadLibraryW _ => true
  | _ => false

/-- Is the call the start of the filesystem search? -/
def Call.isFsSearch : Call → Bool
  | .pathfinder_find .exists_and_not_dir => true
  | _ => false

/-- Is the call the native unload? -/
def Call.isNativeUnload : Call → Bool
  | .FreeLibrary _ => true
  | _ => false

/-- The directory registered by a call of `add_searchdir`. -/
def Call.searchdir : Call → Option (List Char)
  | .add_searchdir d => some d
  | _ => none

/-- Everything `dlfcn.cc` uses and does not define: the Win32 loader, the path
conversion, the mount table, the environment and `errno`, over an operating-system
state `σ`.  `GetModuleHandleExA/W` yield the handle they store through their last
argument (`NULL` on failure). -/
structure Host (σ : Type) where
  GetModuleHandle : σ → Nat × σ
  GetModuleHandleExA : Nat → List Char → σ → Nat × σ
  GetModuleHandleExW : Nat → List Char → σ → Nat × σ
  LoadLibraryW : List Char → σ → Nat × σ
  FreeLibrary : Nat → σ → Bool × σ
  GetProcAddress : Nat → List Char → σ → Nat × σ
  RtlCreateQueryDebugBuffer : σ → Bool × σ
  RtlQueryProcessDebugInformation : σ → (Nat × Bool × List Nat) × σ
  RtlDestroyQueryDebugBuffer : σ → σ
  path_conv_check : List Char → Nat → σ → path_conv × σ
  conv_to_posix_path : List Char → σ → (Nat × List Char) × σ
  envsearchpath : List Char → σ → List (List Char) × σ
  global_progname : List Char
  get_errno : σ → Nat
  set_errno : Nat → σ → σ
  seterrno : σ → σ
  seterrno_from_nt_status : Nat → σ → σ
  strerror : Nat → List Char

/-- The operating-system state together with the trace of collaborator calls. -/
structure World (σ : Type) where
  os : σ
  trace : List Call

/-- The state of the calling thread: the world and the `dlerror` slot. -/
structure Thread (σ : Type) where
  world : World σ
  dl_error : Nat
  dl_buffer : List Char

variable {σ : Type}

/-- Record a call. -/
def World.log (w : World σ) (c : Call) : World σ :=
  { w with trace := w.trace ++ [c] }

/-- Run a collaborator on the operating-system state and record the call. -/
def World.call {α : Type} (w : World σ) (c : Call) (f : σ → α × σ) : α × World σ :=
  ((f w.os).1, { os := (f w.os).2, trace := w.trace ++ [c] })

/-- Run a collaborator without result on the operating-system state, unrecorded. -/
def World.update (w : World σ) (f : σ → σ) : World σ :=
  { w with os := f w.os }

/-! ## Constants of headers that are not part of the sources at hand -/

/-- Flag `RTLD_NODELETE` of `dlfcn.h`. -/
def RTLD_NODELETE : Nat := 8

/-- Flag `RTLD_NOLOAD` of `dlfcn.h`. -/
def RTLD_NOLOAD : Nat := 16

/-- The wildcard handle `RTLD_DEFAULT` of `dlfcn.h`. -/
def RTLD_DEFAULT : Nat := 0

/-- Flag `GET_MODULE_HANDLE_EX_FLAG_PIN` of the Win32 headers. -/
def GET_MODULE_HANDLE_EX_FLAG_PIN : Nat := 1

/-- Option `PC_SYM_FOLLOW` of `path.h`. -/
def PC_SYM_FOLLOW : Nat := 1

/-- Option `PC_NOFULL` of `path.h`. -/
def PC_NOFULL : Nat := 16

/-- Option `PC_NULLEMPTY` of `path.h`. -/
def PC_NULLEMPTY : Nat := 32

/-- Option `PC_POSIX` of `path.h`. -/
def PC_POSIX : Nat := 128

/-- Error number `ENOENT`. -/
def ENOENT : Nat := 2

/-- Error number `ENOMEM`. -/
def ENOMEM : Nat := 12

/-- The test `flags & bit`. -/
def flag_set (flags bit : Nat) : Bool := flags &&& bit != 0

/-! ## `set_dl_error` and `dlerror` -/

/-- The function `set_dl_error`: copy `strerror (get_errno ())` into the buffer, raise the
flag.  The argument `str` is unused, as in the source. -/
def set_dl_error (H : Host σ) (_str : List Char) (t : Thread σ) : Thread σ :=
  { t with dl_buffer := H.strerror (H.get_errno t.world.os), dl_error := 1 }

/-- The function `dlerror`: `none` is `NULL`. -/
def dlerror (t : Thread σ) : Option (List Char) × Thread σ :=
  if t.dl_error = 0 then (none, t)
  else (some t.dl_buffer, { t with dl_error := 0 })

/-! ## `find_loaded_basename` -/

/-- The store `*dot = c` into the buffer of a candidate, at offset `dot`. -/
def member.poke (m : member) (dot : Nat) (c : Char) : member :=
  { m with buffer := m.buffer.set dot c }

/-- The buffer of the candidate holds its text and at least one more byte before the
terminator: room for the trailing dot of `find_loaded_basename`. -/
def member.reserves_dot (m : member) : Prop :=
  ∃ s rest, NUL ∉ s ∧ m.buffer = s ++ NUL :: NUL :: rest ∧ m.stringlength = s.length

/-- Return module handle if one of the basenames is already loaded.  The loop over the
candidates: the handle, the candidates as the loop leaves them, the world. -/
def find_loaded_basename (H : Host σ) (have_suffix : Bool) (gmheflags : Nat) :
    List member → World σ → Nat × List member × World σ
  | [], w => (0, [], w)
  | bn :: rest, w =>
    let dot := bn.stringlength
    let bn1 := if !have_suffix then bn.poke dot '.' else bn
    let r := w.call (.GetModuleHandleExA gmheflags (cstr bn1.buffer))
      (H.GetModuleHandleExA gmheflags (cstr bn1.buffer))
    let bn2 := if !have_suffix then bn1.poke dot NUL else bn1
    if r.1 ≠ 0 then (r.1, bn2 :: rest, r.2)
    else
      let r2 := find_loaded_basename H have_suffix gmheflags rest r.2
      (r2.1, bn2 :: r2.2.1, r2.2.2)

/-! ## `pathfinder` -/

/-- Modelled from the spec: a `pathfinder` (`pathfinder.h` is not part of the sources at
hand) holds the candidates it was constructed with and the registered search
directories, both in order. -/
structure pathfinder where
  basenames : List member
  searchdirs : List (List Char)

/-- Modelled from the spec: `pathfinder::add_searchdir (dir, dirlen)` registers the first
`dirlen` characters of `dir` behind the directories registered so far. -/
def pathfinder.add_searchdir (finder : pathfinder) (dir : List Char) (dirlen : Nat)
    (w : World σ) : pathfinder × World σ :=
  ({ finder with searchdirs := finder.searchdirs ++ [dir.take dirlen] },
   w.log (.add_searchdir (dir.take dirlen)))

/-- Modelled from the spec: `pathfinder::add_envsearchpath (var)` registers the directories
the environment variable lists, in their order. -/
def pathfinder.add_envsearchpath (H : Host σ) (finder : pathfinder) (var : List Char)
    (w : World σ) : pathfinder × World σ :=
  let r := w.call (.add_envsearchpath var) (H.envsearchpath var)
  ({ finder with searchdirs := finder.searchdirs ++ r.1 }, r.2)

/-- Modelled from the spec: the candidates of one directory are tested in order, the
file name being the directory, a slash and the candidate; the first success ends the
search. -/
def find_in_dir {S : Type} (test : List Char → S → Bool × S) (dir : List Char) :
    List member → S → Bool × S
  | [], s => (false, s)
  | bn :: rest, s =>
    let r := test (dir ++ '/' :: bn.string) s
    if r.1 then (true, r.2) else find_in_dir test dir rest r.2

/-- Modelled from the spec: the directories are walked in order, each with all candidates. -/
def find_in_dirs {S : Type} (test : List Char → S → Bool × S) (basenames : List member) :
    List (List Char) → S → Bool × S
  | [], s => (false, s)
  | dir :: dirs, s =>
    let r := find_in_dir test dir basenames s
    if r.1 then (true, r.2) else find_in_dirs test basenames dirs r.2

/-- Modelled from the spec: `pathfinder::find (criterion)` with the criterion given by its
`test` method. -/
def pathfinder.find {S : Type} (finder : pathfinder) (test : List Char → S → Bool × S)
    (s : S) : Bool × S :=
  find_in_dirs test finder.basenames finder.searchdirs s

/-! ## `find_loaded_fullname` -/

/-- The objects `find_loaded_fullname` and the file system search share by reference:
the world, `real_filename`, the contents of the buffer `wpath`, and `ret`. -/
structure Frame (σ : Type) where
  world : World σ
  real_filename : path_conv
  wpath : List Char
  ret : Nat

/-- The loop `for (int i = 0; !ret_ && i < 2; ++i)` of `loaded::test`, with `n` the number
of rounds left, followed by `return !!ret_`. -/
def loaded_test_loop (H : Host σ) (have_suffix : Bool) (gmheflags : Nat)
    (filename : List Char) : Nat → Nat → Frame σ → Bool × Frame σ
  | 0, _, f => (f.ret != 0, f)
  | n + 1, symflag, f =>
    if f.ret ≠ 0 then (true, f)
    else
      let c := f.world.call (.path_conv_check filename symflag)
        (H.path_conv_check filename symflag)
      match c.1.wide_win32_path with
      | none => (false, { f with world := c.2, real_filename := c.1 })
      | some p =>
        let wpath := if !have_suffix then p ++ ['.'] else p
        let g := c.2.call (.GetModuleHandleExW gmheflags wpath)
          (H.GetModuleHandleExW gmheflags wpath)
        let f1 : Frame σ :=
          { world := g.2, real_filename := c.1, wpath := wpath, ret := g.1 }
        if !c.1.issymlink then (g.1 != 0, f1)
        else loaded_test_loop H have_suffix gmheflags filename n (symflag ||| PC_SYM_FOLLOW) f1

/-- The method `loaded::test`. -/
def loaded_test (H : Host σ) (have_suffix : Bool) (gmheflags : Nat) (filename : List Char)
    (f : Frame σ) : Bool × Frame σ :=
  loaded_test_loop H have_suffix gmheflags filename 2 PC_POSIX f

/-- Return module handle if one of the basenames (registered in finder) is already loaded
from within one of the searchdirs (registered in finder).  The handle is the field
`ret` of the result. -/
def find_loaded_fullname (H : Host σ) (finder : pathfinder) (have_suffix : Bool)
    (gmheflags : Nat) (f : Frame σ) : Frame σ :=
  (finder.find (loaded_test H have_suffix gmheflags)
    { f with ret := 0, world := f.world.log (.pathfinder_find .loaded) }).2

/-! ## `get_exedir` -/

/-- The loop `while (--wlastsep > wpathbuf) if (*wlastsep == L'\\') break;` started with
`wlastsep = wpathbuf + n`: the offset of the last backslash behind the first
character, `none` when the loop ends with `wlastsep <= wpathbuf`. -/
def find_lastsep (wpathbuf : List Char) : Nat → Option Nat
  | 0 => none
  | i + 1 =>
    if i = 0 then none
    else if wpathbuf.getD i NUL = BACKSLASH then some i
    else find_lastsep wpathbuf i

/-- Result of `get_exedir`: the length returned and the contents of both buffers. -/
structure exedir (σ : Type) where
  exedirlen : Nat
  exedirbuf : List Char
  wpathbuf : List Char
  world : World σ

/-- Identify dir of current executable into exedirbuf using wpathbuf buffer.  Return
length of exedirbuf on success, or zero on error. -/
def get_exedir (H : Host σ) (w : World σ) : exedir σ :=
  match find_lastsep H.global_progname H.global_progname.length with
  | none => { exedirlen := 0, exedirbuf := [], wpathbuf := H.global_progname, world := w }
  | some i =>
    let wp := H.global_progname.take i
    let r := w.call (.conv_to_posix_path wp) (H.conv_to_posix_path wp)
    if r.1.1 ≠ 0 then { exedirlen := 0, exedirbuf := r.1.2, wpathbuf := wp, world := r.2 }
    else { exedirlen := r.1.2.length, exedirbuf := r.1.2, wpathbuf := wp, world := r.2 }

/-! ## `dlopen` -/

/-- Modelled from the spec: the method `test` of the criterion
`pathfinder::exists_and_not_dir (real_filename, opt)`: check the file name and
succeed for an existing file that is no directory. -/
def exists_and_not_dir_test (H : Host σ) (opt : Nat) (filename : List Char) (f : Frame σ) :
    Bool × Frame σ :=
  let c := f.world.call (.path_conv_check filename opt) (H.path_conv_check filename opt)
  (c.1.file_exists && !c.1.isdir, { f with world := c.2, real_filename := c.1 })

/-- The value `gmheflags` computed from the flags of `dlopen`. -/
def gmheflags_of (flags : Nat) : Nat :=
  if flag_set flags RTLD_NODELETE then GET_MODULE_HANDLE_EX_FLAG_PIN else 0

/-- The last path component of `wpath` from `wcsrchr (wpath, L'\\') ?: wpath` on. -/
def last_component (wpath : List Char) : List Char :=
  match strrchr wpath BACKSLASH with
  | some i => wpath.drop i
  | none => wpath

/-- Add a trailing dot unless the last path component contains a dot. -/
def add_trailing_dot (wpath : List Char) : List Char :=
  if (last_component wpath).contains '.' then wpath else wpath ++ ['.']

/-- The contents of `wpath` behind `real_filename.get_wide_win32_path (wpath)` and the
handling of the trailing dot: the path handed to the loader. -/
def native_wpath (f : Frame σ) : List Char :=
  add_trailing_dot
    (match f.real_filename.wide_win32_path with
     | some p => p
     | none => f.wpath)

/-- The part of `dlopen` from `ret = (void *) LoadLibraryW (wpath)` to the end of the `do`
block: the native load, the pinning query and `__seterrno ()`. -/
def dlopen_native (H : Host σ) (gmheflags : Nat) (wpath : List Char) (w : World σ) :
    Nat × World σ :=
  let l := w.call (.LoadLibraryW wpath) (H.LoadLibraryW wpath)
  let n :=
    if l.1 ≠ 0 ∧ gmheflags ≠ 0 then
      l.2.call (.GetModuleHandleExW gmheflags wpath) (H.GetModuleHandleExW gmheflags wpath)
    else l
  if n.1 = 0 then (n.1, n.2.update H.seterrno) else n

/-- The part of `dlopen` from `real_filename.get_wide_win32_path (wpath)` to the end of
the `do` block: with `RTLD_NOLOAD` the query for the path and `break` on a hit, then the
native load. -/
def dlopen_load (H : Host σ) (flags : Nat) (f : Frame σ) : Nat × World σ :=
  if flag_set flags RTLD_NOLOAD = true then
    let g := f.world.call (.GetModuleHandleExW (gmheflags_of flags) (native_wpath f))
      (H.GetModuleHandleExW (gmheflags_of flags) (native_wpath f))
    if g.1 ≠ 0 then g else dlopen_native H (gmheflags_of flags) (native_wpath f) g.2
  else dlopen_native H (gmheflags_of flags) (native_wpath f) f.world

/-- The part of `dlopen` that searches the file system (`now search the file system`)
and goes on to the native load. -/
def dlopen_search (H : Host σ) (name : List Char) (flags : Nat) (finder : pathfinder)
    (f : Frame σ) : Nat × World σ :=
  let r := finder.find (exists_and_not_dir_test H (PC_SYM_FOLLOW ||| PC_POSIX))
    { f with world := f.world.log (.pathfinder_find .exists_and_not_dir) }
  if r.1 then dlopen_load H flags r.2
  else
    let opt := PC_SYM_FOLLOW ||| PC_NOFULL ||| PC_NULLEMPTY
    let c := r.2.world.call (.path_conv_check name opt) (H.path_conv_check name opt)
    if c.1.error ≠ 0 then (r.2.ret, c.2)
    else dlopen_load H flags { r.2 with world := c.2, real_filename := c.1 }

/-- The search directories `dlopen` registers for a name with a directory part of
length `dirlen`: the directory of the executable for `x/lib` against `x/bin`, then the
specified directory.  Also yields the contents of `wpath` and the world. -/
def dlopen_add_dirs (H : Host σ) (finder : pathfinder) (name : List Char) (dirlen : Nat)
    (f : Frame σ) : pathfinder × Frame σ :=
  let a : pathfinder × Frame σ :=
    if dirlen ≥ 4 ∧ strncmp_eq (name.drop (dirlen - 4)) ['/', 'l', 'i', 'b'] 4 = true then
      let e := get_exedir H f.world
      let f1 : Frame σ := { f with world := e.world, wpath := e.wpathbuf }
      if e.exedirlen = dirlen ∧ strncmp_eq e.exedirbuf name (dirlen - 4) = true ∧
          strcmp_eq (e.exedirbuf.drop (dirlen - 4)) ['/', 'b', 'i', 'n'] = true then
        let r := finder.add_searchdir e.exedirbuf e.exedirlen f1.world
        (r.1, { f1 with world := r.2 })
      else (finder, f1)
    else (finder, f)
  let r := a.1.add_searchdir name dirlen a.2.world
  (r.1, { a.2 with world := r.2 })

/-- The part of `dlopen` behind the construction of `finder`: the branch
`if (have_dir) ... else ...` and what follows it. -/
def dlopen_find (H : Host σ) (name : List Char) (flags : Nat) (sb : spotted)
    (basenames : List member) (have_suffix : Bool) (w : World σ) : Nat × World σ :=
  let f : Frame σ := { world := w, real_filename := path_conv.init, wpath := [], ret := 0 }
  let finder : pathfinder := { basenames := basenames, searchdirs := [] }
  if sb.have_dir then
    let dirlen := sb.basename_off - 1
    let a := dlopen_add_dirs H finder name dirlen f
    let l := find_loaded_fullname H a.1 have_suffix (gmheflags_of flags) a.2
    if l.ret ≠ 0 ∨ flag_set flags RTLD_NOLOAD = true then (l.ret, l.world)
    else dlopen_search H name flags a.1 l
  else
    let e := finder.add_envsearchpath H "LD_LIBRARY_PATH".toList f.world
    let b := e.1.add_searchdir "/usr/bin".toList 8 e.2
    let l := b.1.add_searchdir "/usr/lib".toList 8 b.2
    dlopen_search H name flags l.1 { f with world := l.2 }

/-- The `do ... while (0)` block of `dlopen`; `none` is the `NULL` name. -/
def dlopen_do (H : Host σ) (name : Option (List Char)) (flags : Nat) (w : World σ) :
    Nat × World σ :=
  if name = none ∨ name = some [] then
    let r := w.call .GetModuleHandle H.GetModuleHandle
    if r.1 = 0 then (r.1, r.2.update H.seterrno) else r
  else
    let nm := name.getD []
    let sb := spot_basename nm
    let cb := collect_basenames [] (nm.drop sb.basename_off) sb.baselen
    if !sb.have_dir then
      let r := find_loaded_basename H cb.2 (gmheflags_of flags) cb.1 w
      if r.1 ≠ 0 ∨ flag_set flags RTLD_NOLOAD = true then (r.1, r.2.2)
      else dlopen_find H nm flags sb r.2.1 cb.2 r.2.2
    else dlopen_find H nm flags sb cb.1 cb.2 w

/-- The function `dlopen`; `none` is the `NULL` name, the result `0` is `NULL`. -/
def dlopen (H : Host σ) (name : Option (List Char)) (flags : Nat) (t : Thread σ) :
    Nat × Thread σ :=
  let r := dlopen_do H name flags t.world
  if r.1 = 0 then (r.1, set_dl_error H "dlopen".toList { t with world := r.2 })
  else (r.1, { t with world := r.2 })

/-! ## `dlsym` and `dlclose` -/

/-- The loop of `dlsym` over the modules: the first address that is not `NULL`. -/
def dlsym_modules (H : Host σ) (name : List Char) : List Nat → World σ → Nat × World σ
  | [], w => (0, w)
  | base :: mods, w =>
    let r := w.call (.GetProcAddress base name) (H.GetProcAddress base name)
    if r.1 ≠ 0 then r else dlsym_modules H name mods r.2

/-- The function `dlsym`; the result `0` is `NULL`. -/
def dlsym (H : Host σ) (handle : Nat) (name : List Char) (t : Thread σ) : Nat × Thread σ :=
  if handle = RTLD_DEFAULT then
    let b := t.world.call .RtlCreateQueryDebugBuffer H.RtlCreateQueryDebugBuffer
    if !b.1 then
      (0, set_dl_error H "dlsym".toList { t with world := b.2.update (H.set_errno ENOMEM) })
    else
      let q := b.2.call .RtlQueryProcessDebugInformation H.RtlQueryProcessDebugInformation
      let r : Nat × World σ :=
        if !q.1.2.1 then (0, q.2.update (H.seterrno_from_nt_status q.1.1))
        else
          let m := dlsym_modules H name q.1.2.2 q.2
          if m.1 = 0 then (m.1, m.2.update (H.set_errno ENOENT)) else m
      let w := (r.2.update H.RtlDestroyQueryDebugBuffer).log .RtlDestroyQueryDebugBuffer
      if r.1 = 0 then (r.1, set_dl_error H "dlsym".toList { t with world := w })
      else (r.1, { t with world := w })
  else
    let g := t.world.call (.GetProcAddress handle name) (H.GetProcAddress handle name)
    let w := if g.1 = 0 then g.2.update H.seterrno else g.2
    if g.1 = 0 then (g.1, set_dl_error H "dlsym".toList { t with world := w })
    else (g.1, { t with world := w })

/-- The function `dlclose`: `0` on success, `-1` on failure. -/
def dlclose (H : Host σ) (handle : Nat) (t : Thread σ) : Int × Thread σ :=
  let m := t.world.call .GetModuleHandle H.GetModuleHandle
  let r : Int × World σ :=
    if handle = m.1 then (0, m.2)
    else
      let fr := m.2.call (.FreeLibrary handle) (H.FreeLibrary handle)
      if fr.1 then (0, fr.2) else (-1, fr.2)
  if r.1 ≠ 0 then (r.1, set_dl_error H "dlclose".toList { t with world := r.2 })
  else (r.1, { t with world := r.2 })

/-! ## Observations on traces -/

/-- Number of native loads (`LoadLibraryW`) recorded in the world. -/
def native_loads (w : World σ) : Nat := w.trace.countP Call.isNativeLoad

/-- Number of file system searches recorded in the world. -/
def fs_searches (w : World σ) : Nat := w.trace.countP Call.isFsSearch

/-- Number of native unloads (`FreeLibrary`) recorded in the world. -/
def native_unloads (w : World σ) : Nat := w.trace.countP Call.isNativeUnload

/-- The search directories registered in the world, in order of registration. -/
def searchdirs_of (w : World σ) : List (List Char) := w.trace.filterMap Call.searchdir

/-- The already-loaded probe of `dlopen` for a non-empty name: by candidate basename when
the name has no directory, by directory-qualified path otherwise. -/
def probe_loaded (H : Host σ) (name : List Char) (flags : Nat) (w : World σ) : Nat × World σ :=
  let sb := spot_basename name
  let cb := collect_basenames [] (name.drop sb.basename_off) sb.baselen
  if !sb.have_dir then
    let r := find_loaded_basename H cb.2 (gmheflags_of flags) cb.1 w
    (r.1, r.2.2)
  else
    let a := dlopen_add_dirs H { basenames := cb.1, searchdirs := [] } name
      (sb.basename_off - 1)
      { world := w, real_filename := path_conv.init, wpath := [], ret := 0 }
    let l := find_loaded_fullname H a.1 cb.2 (gmheflags_of flags) a.2
    (l.ret, l.world)

/-- The directory of the executable as `get_exedir` yields it: `none` when it returns
zero. -/
def exedir_of (H : Host σ) (w : World σ) : Option (List Char) :=
  if (get_exedir H w).exedirlen = 0 then none
  else some ((get_exedir H w).exedirbuf.take (get_exedir H w).exedirlen)

/-- The text of `b` from its last `.` to its end, `none` when `b` has no `.`. -/
def last_dot_text : List Char → Option (List Char)
  | [] => none
  | c :: cs =>
    match last_dot_text cs with
    | some s => some s
    | none => if c = '.' then some (c :: cs) else none

/-! ## A fake host -/

/-- State of the fake host: the native paths of the mapped modules (the module at
position `i` has the handle `i + 2`, the running image has the handle `1`), `errno` and
the last Win32 error. -/
structure FakeOS where
  modules : List (List Char)
  errno : Nat
  lasterr : Nat
deriving DecidableEq

/-- Handle of the first module that satisfies `p`, counting from `k`; `0` for none. -/
def fake_handle (p : List Char → Bool) : List (List Char) → Nat → Nat
  | [], _ => 0
  | m :: ms, k => if p m then k else fake_handle p ms (k + 1)

/-- Posix form of a native directory in the fake host: the drive is dropped, backslashes
become slashes. -/
def fake_posix (wpath : List Char) : List Char :=
  (wpath.drop 2).map (fun c => if c = BACKSLASH then '/' else c)

/-- A fake host over a table of files and the native path of the running program.  A
module is found by name when the last component of its path (behind the backslash) is
that name, and by path when its path is that path; loading a path maps it once. -/
def fakeHost (files : List (List Char × path_conv)) (progname : List Char) : Host FakeOS :=
  { GetModuleHandle := fun s => (1, s),
    GetModuleHandleExA := fun _ name s =>
      (fake_handle (fun m => (last_component m).drop 1 == name) s.modules 2, s),
    GetModuleHandleExW := fun _ wpath s => (fake_handle (fun m => m == wpath) s.modules 2, s),
    LoadLibraryW := fun wpath s =>
      if fake_handle (fun m => m == wpath) s.modules 2 ≠ 0 then
        (fake_handle (fun m => m == wpath) s.modules 2, s)
      else if wpath.contains BACKSLASH then
        (s.modules.length + 2, { s with modules := s.modules ++ [wpath] })
      else (0, { s with lasterr := ENOENT }),
    FreeLibrary := fun h s =>
      if 2 ≤ h ∧ h < s.modules.length + 2 then (true, s) else (false, { s with lasterr := 9 }),
    GetProcAddress := fun h name s =>
      if 2 ≤ h ∧ h < s.modules.length + 2 then (1000 * h + name.length, s)
      else (0, { s with lasterr := ENOENT }),
    RtlCreateQueryDebugBuffer := fun s => (true, s),
    RtlQueryProcessDebugInformation := fun s =>
      ((0, true, (List.range s.modules.length).map (fun i => i + 2)), s),
    RtlDestroyQueryDebugBuffer := fun s => s,
    path_conv_check := fun name _ s =>
      match files.lookup name with
      | some pc => (pc, s)
      | none => ({ path_conv.init with error := ENOENT }, s),
    conv_to_posix_path := fun wpath s => ((0, fake_posix wpath), s),
    envsearchpath := fun _ s => ([], s),
    global_progname := progname,
    get_errno := fun s => s.errno,
    set_errno := fun e s => { s with errno := e },
    seterrno := fun s => { s with errno := s.lasterr },
    seterrno_from_nt_status := fun st s => { s with errno := st },
    strerror := fun e => if e = ENOENT then "No such file or directory".toList
      else if e = 0 then "No error".toList else "Unknown error".toList }

/-- A regular file of the fake host with the given native path. -/
def fake_file (wpath : List Char) : path_conv :=
  { wide_win32_path := some wpath, error := 0, file_exists := true, isdir := false,
    issymlink := false }

/-- Native path `C:\bin\` followed by `file`. -/
def fake_native (file : String) : List Char :=
  ['C', ':', BACKSLASH, 'b', 'i', 'n', BACKSLASH] ++ file.toList

/-- The fake host used in the examples: `/usr/bin/foo` is a regular file,
`/usr/bin/link` resolves to the file `bar.dll`, the program is `C:\usr\bin\prog.exe`. -/
def exampleHost : Host FakeOS :=
  fakeHost
    [("/usr/bin/foo".toList, fake_file (fake_native "foo")),
     ("/usr/bin/link".toList, fake_file (fake_native "bar.dll")),
     ("/usr/lib/libz.dll".toList, fake_file (fake_native "libz.dll"))]
    (['C', ':', BACKSLASH, 'u', 's', 'r', BACKSLASH, 'b', 'i', 'n', BACKSLASH] ++
      "prog.exe".toList)

/-- A thread of the fake host with nothing loaded, no call made and no error pending. -/
def exampleThread : Thread FakeOS :=
  { world := { os := { modules := [], errno := 0, lasterr := 0 }, trace := [] },
    dl_error := 0, dl_buffer := [] }
/-! ## Properties of traces -/

/-- The trace of `v` is the trace of `w` followed by calls that all satisfy `P`. -/
def trace_extends (P : Call → Bool) (w v : World σ) : Prop :=
  ∃ t, v.trace = w.trace ++ t ∧ ∀ e ∈ t, P e = true

/-- The calls of the already-loaded probes: handle queries and path checks. -/
def Call.isProbe : Call → Bool
  | .GetModuleHandleExA _ _ => true
  | .GetModuleHandleExW _ _ => true
  | .path_conv_check _ _ => true
  | .pathfinder_find .loaded => true
  | _ => false

/-- The call is neither the native load nor the start of the file system search. -/
def Call.isQuiet (c : Call) : Bool := !c.isNativeLoad && !c.isFsSearch

/-- The call registers no search directory. -/
def Call.noSearchdir (c : Call) : Bool := c.searchdir.isNone

/-- The call `collect_basenames (basenames, basename, baselen)` of `dlopen`: the basename
and the length it passes, `none` when `dlopen` leaves before the call (for the `NULL` and
the empty name). -/
def dlopen_collect_call (name : Option (List Char)) : Option (List Char × Nat) :=
  if name = none ∨ name = some [] then none
  else some ((name.getD []).drop (spot_basename (name.getD [])).basename_off,
    (spot_basename (name.getD [])).baselen)

/-- The part of `dlopen` behind the call of `collect_basenames`, given what that call
yields (the candidates and `have_suffix`): the probe by basename for a name without a
directory, and what follows the construction of `finder`. -/
def dlopen_named (H : Host σ) (nm : List Char) (flags : Nat) (cb : List member × Bool)
    (w : World σ) : Nat × World σ :=
  if !(spot_basename nm).have_dir then
    if (find_loaded_basename H cb.2 (gmheflags_of flags) cb.1 w).1 ≠ 0 ∨
        flag_set flags RTLD_NOLOAD = true then
      ((find_loaded_basename H cb.2 (gmheflags_of flags) cb.1 w).1,
       (find_loaded_basename H cb.2 (gmheflags_of flags) cb.1 w).2.2)
    else dlopen_find H nm flags (spot_basename nm)
      (find_loaded_basename H cb.2 (gmheflags_of flags) cb.1 w).2.1 cb.2
      (find_loaded_basename H cb.2 (gmheflags_of flags) cb.1 w).2.2
  else dlopen_find H nm flags (spot_basename nm) cb.1 cb.2 w

/-- The predicate `P` holds for every call `dlopen` makes before the native load, the
loader queries being made with the flags `gm`. -/
structure admits (P : Call → Bool) (gm : Nat) : Prop where
  image : P .GetModuleHandle = true
  queryA : ∀ n, P (.GetModuleHandleExA gm n) = true
  queryW : ∀ p, P (.GetModuleHandleExW gm p) = true
  check : ∀ n o, P (.path_conv_check n o) = true
  posix : ∀ p, P (.conv_to_posix_path p) = true
  searchdir : ∀ d, P (.add_searchdir d) = true
  envpath : ∀ v, P (.add_envsearchpath v) = true
  find : ∀ c, P (.pathfinder_find c) = true

/-- The result `r` is that of the native load of `dlopen` (`dlopen_native`) for the
resolved path `p` with its trailing dot handled, started in a world `w0` that follows `w`
by calls satisfying `P`. -/
def reaches_native (H : Host σ) (gm : Nat) (P : Call → Bool) (w : World σ)
    (r : Nat × World σ) : Prop :=
  ∃ p w0, r = dlopen_native H gm (add_trailing_dot p) w0 ∧ trace_extends P w w0

/-- The loader query carries the flag `GET_MODULE_HANDLE_EX_FLAG_PIN`. -/
def Call.carriesPin : Call → Bool
  | .GetModuleHandleExA fl _ => flag_set fl GET_MODULE_HANDLE_EX_FLAG_PIN
  | .GetModuleHandleExW fl _ => flag_set fl GET_MODULE_HANDLE_EX_FLAG_PIN
  | _ => false

/-- The call is no native load, and a loader query only with the flags `gm`. -/
def Call.beforeLoad (gm : Nat) : Call → Bool
  | .GetModuleHandleExA fl _ => fl == gm
  | .GetModuleHandleExW fl _ => fl == gm
  | .LoadLibraryW _ => false
  | _ => true

/-- The thread of the fake host with `errno` left at `ENOMEM` by something earlier. -/
def staleThread : Thread FakeOS :=
  { world := { os := { modules := [], errno := ENOMEM, lasterr := 0 }, trace := [] },
    dl_error := 0, dl_buffer := [] }

/-- The name under which `find_loaded_basename` asks the loader for the candidate `bn`: its
buffer read as a C string, with the dot stored behind the text when `have_suffix` is
false. -/
def probe_name (have_suffix : Bool) (bn : member) : List Char :=
  cstr (if !have_suffix then bn.poke bn.stringlength '.' else bn).buffer

/-- What the loader reports for each of the names when asked for them one after the other
by `GetModuleHandleExA` with the flags `gm`, starting in the state `s`. -/
def loader_answers (H : Host σ) (gm : Nat) : List (List Char) → σ → List Nat
  | [], _ => []
  | n :: ns, s =>
    (H.GetModuleHandleExA gm n s).1 :: loader_answers H gm ns (H.GetModuleHandleExA gm n s).2

/-- What `GetProcAddress` yields for the symbol in each of the modules when they are asked
one after the other, starting in the state `s`. -/
def lookup_answers (H : Host σ) (symbol : List Char) : List Nat → σ → List Nat
  | [], _ => []
  | m :: ms, s =>
    (H.GetProcAddress m symbol s).1 :: lookup_answers H symbol ms (H.GetProcAddress m symbol s).2

/-- The first answer that is not `NULL`, `NULL` when there is none. -/
def first_found (answers : List Nat) : Nat := (answers.find? (fun a => a != 0)).getD 0

/-- The number of questions asked until the first answer that is not `NULL` is in. -/
def asked (answers : List Nat) : Nat := (answers.takeWhile (fun a => a == 0)).length + 1

/-- A thread of the fake host with the modules `a.dll` (handle `2`) and `b.dll` (handle `3`)
loaded. -/
def loadedThread : Thread FakeOS :=
  { world := { os := { modules := [fake_native "a.dll", fake_native "b.dll"], errno := 0,
                       lasterr := 0 }, trace := [] },
    dl_error := 0, dl_buffer := [] }

/-! ## `tmp_pathbuf_allocator` -/

/-- The constant `NT_MAX_PATH` of the Cygwin headers. -/
def NT_MAX_PATH : Nat := 32768

/-- The value of `sizeof (WCHAR)`. -/
def sizeof_WCHAR : Nat := 2

/-- The size of one buffer of `tmp_pathbuf::w_get ()`: `NT_MAX_PATH * sizeof (WCHAR)`. -/
def chunksize : Nat := NT_MAX_PATH * sizeof_WCHAR

/-- The state of a `tmp_pathbuf_allocator`: `freemem_` given by the number of buffers
obtained from `tp_.w_get ()` so far (it points into the last one; `0` while it is `NULL`)
and its byte offset in that buffer, and `freesize_`. -/
structure tmp_pathbuf_allocator where
  chunk : Nat
  freemem : Nat
  freesize : Nat
deriving DecidableEq

/-- The allocator as the constructor leaves it: `freemem_ ()`, `freesize_ (0)`. -/
def tmp_pathbuf_allocator.init : tmp_pathbuf_allocator :=
  { chunk := 0, freemem := 0, freesize := 0 }

/-- A block returned by `alloc`: the buffer it lies in, its byte offset there, and the
number of bytes asked for. -/
structure block where
  chunk : Nat
  offset : Nat
  size : Nat
deriving DecidableEq

/-- The value `need` after `if (need == 0) need = 1;`. -/
def alloc_need (need : Nat) : Nat := if need = 0 then 1 else need

/-- The statement `need = need + 7 - (need - 1) % 8;`. -/
def align8 (need : Nat) : Nat := need + 7 - (need - 1) % 8

/-- The allocator behind `if (need > freesize_) ...`: a fresh buffer when the request does
not fit into what remains. -/
def tmp_pathbuf_allocator.fit (a : tmp_pathbuf_allocator) (need : Nat) :
    tmp_pathbuf_allocator :=
  if alloc_need need > a.freesize then
    { chunk := a.chunk + 1, freemem := 0, freesize := chunksize }
  else a

/-- The second test `need > freesize_` of `alloc`, made with the rounded `need`: true when
`freesize_` is set to zero instead of being reduced. -/
def tmp_pathbuf_allocator.clamps (a : tmp_pathbuf_allocator) (need : Nat) : Bool :=
  decide (align8 (alloc_need need) > (a.fit need).freesize)

/-- The method `tmp_pathbuf_allocator::alloc`: the block returned and the allocator behind
the call; `none` when `api_fatal` ends the process.  `tp_.w_get ()` is taken to provide
a fresh buffer of `chunksize` bytes. -/
def tmp_pathbuf_allocator.alloc (a : tmp_pathbuf_allocator) (need : Nat) :
    Option (block × tmp_pathbuf_allocator) :=
  if alloc_need need > chunksize then none
  else
    some ({ chunk := (a.fit need).chunk, offset := (a.fit need).freemem,
            size := alloc_need need },
          { chunk := (a.fit need).chunk,
            freemem := (a.fit need).freemem + align8 (alloc_need need),
            freesize :=
              if align8 (alloc_need need) > (a.fit need).freesize then 0
              else (a.fit need).freesize - align8 (alloc_need need) })

/-- A sequence of calls of `alloc`: the blocks returned, in order, and the allocator behind
the last call. -/
def tmp_pathbuf_allocator.allocs :
    tmp_pathbuf_allocator → List Nat → Option (List block × tmp_pathbuf_allocator)
  | a, [] => some ([], a)
  | a, need :: needs =>
    match a.alloc need with
    | none => none
    | some r =>
      match r.2.allocs needs with
      | none => none
      | some rs => some (r.1 :: rs.1, rs.2)

/-- Two blocks do not overlap: they lie in different buffers, or the first ends before the
second begins. -/
def block.before (b c : block) : Prop := b.chunk = c.chunk → b.offset + b.size ≤ c.offset

/-- What holds of an allocator and the blocks it has returned: the offset and the
remaining size are multiples of 8 and stay inside the buffer, no two blocks overlap, and
every block starts at a multiple of 8, lies inside its buffer, and lies below the offset
or in an earlier buffer. -/
def alloc_inv (a : tmp_pathbuf_allocator) (blocks : List block) : Prop :=
  a.freesize % 8 = 0 ∧ a.freemem % 8 = 0 ∧ a.freemem + a.freesize ≤ chunksize ∧
  blocks.Pairwise block.before ∧
  ∀ b ∈ blocks, b.chunk ≤ a.chunk ∧ (b.chunk = a.chunk → b.offset + b.size ≤ a.freemem) ∧
    b.offset % 8 = 0 ∧ b.offset + b.size ≤ chunksize

/-! ## Coherent loaders and path resolvers -/

/-- The name of the module a native path leads to: the text behind the last backslash, or
all of the path when it has none. -/
def module_name (p : List Char) : List Char :=
  match strrchr p BACKSLASH with
  | some i => p.drop (i + 1)
  | none => p

/-- A loader and a path resolver that agree on names, with `mapped s n` the handle of the
module mapped under the name `n` in the state `s` (`0` for none): the queries report the
mapping and leave it as it is; a successful load maps the module name of the loaded path
to the handle it returns and changes the mapping of no other name; the path resolver and
the environment leave the mapping as it is; and a file found in a directory, as well as
a plain name the resolver accepts, resolves to a native path whose module name is the
name of the file. -/
structure coherent (H : Host σ) (mapped : σ → List Char → Nat) : Prop where
  queryA : ∀ fl n s, (H.GetModuleHandleExA fl n s).1 = mapped s n ∧
    mapped (H.GetModuleHandleExA fl n s).2 = mapped s
  queryW : ∀ fl p s, (H.GetModuleHandleExW fl p s).1 = mapped s (module_name p) ∧
    mapped (H.GetModuleHandleExW fl p s).2 = mapped s
  load : ∀ p s, (H.LoadLibraryW p s).1 ≠ 0 →
    mapped (H.LoadLibraryW p s).2 (module_name p) = (H.LoadLibraryW p s).1 ∧
    ∀ n, n ≠ module_name p → mapped (H.LoadLibraryW p s).2 n = mapped s n
  check : ∀ f opt s, mapped (H.path_conv_check f opt s).2 = mapped s
  envpath : ∀ v s, mapped (H.envsearchpath v s).2 = mapped s
  found : ∀ dir c opt s, '/' ∉ c →
    (H.path_conv_check (dir ++ '/' :: c) opt s).1.file_exists = true →
    (H.path_conv_check (dir ++ '/' :: c) opt s).1.isdir = false →
    ∃ p, (H.path_conv_check (dir ++ '/' :: c) opt s).1.wide_win32_path = some p ∧
      module_name p = c
  fallback : ∀ c opt s, '/' ∉ c → (H.path_conv_check c opt s).1.error = 0 →
    ∃ p, (H.path_conv_check c opt s).1.wide_win32_path = some p ∧ module_name p = c

theorem cstr_append_replicate (s : List Char) (k : Nat) (hs : NUL ∉ s) :
    cstr (s ++ List.replicate k NUL) = s := by
  induction s with
  | nil =>
    cases k with
    | zero => rfl
    | succ k => simp [cstr, List.replicate_succ]
  | cons c cs ih =>
    have hc : c ≠ NUL := fun h => hs (by simp [h])
    have hcs : NUL ∉ cs := fun h => hs (by simp [h])
    have := ih hcs
    simp only [cstr] at this ⊢
    simp [List.takeWhile_cons, hc, this]

theorem member_string_create (parts : List (List Char × Nat)) (h : NUL ∉ concat_parts parts) :
    (member.create parts).string = concat_parts parts := by
  simp only [member.string, member.create]
  exact cstr_append_replicate _ _ h

theorem getD_ne_dot (b : List Char) (i : Nat) (h : '.' ∉ b) : b.getD i NUL ≠ '.' := by
  by_cases hi : i < b.length
  · rw [List.getD_eq_getElem _ _ hi]
    intro hc
    exact h (hc ▸ List.getElem_mem hi)
  · rw [List.getD_eq_default _ _ (by omega)]
    decide

theorem find_suffix_none (b : List Char) (n : Nat) (h : '.' ∉ b) : find_suffix b n = none := by
  induction n with
  | zero => rfl
  | succ i ih =>
    simp only [find_suffix, if_neg (getD_ne_dot b i h)]
    exact ih

theorem find_suffix_last_aux (p q : List Char) (h : '.' ∉ q) (k : Nat) (hk : k ≤ q.length) :
    find_suffix (p ++ '.' :: q) (p.length + 1 + k) = some p.length := by
  induction k with
  | zero =>
    have h1 : p.length < (p ++ '.' :: q).length := by simp
    have h2 : (p ++ '.' :: q).getD p.length NUL = '.' := by
      rw [List.getD_eq_getElem _ _ h1, List.getElem_append_right (le_refl _)]
      simp
    show find_suffix (p ++ '.' :: q) (p.length + 1) = some p.length
    simp only [find_suffix, h2, if_true]
  | succ k ih =>
    have hlt : k < q.length := by omega
    have hne : (p ++ '.' :: q).getD (p.length + 1 + k) NUL ≠ '.' := by
      have h1 : p.length + 1 + k < (p ++ '.' :: q).length := by simp; omega
      rw [List.getD_eq_getElem _ _ h1]
      have h2 : (p ++ '.' :: q)[p.length + 1 + k] = q[k] := by
        rw [List.getElem_append_right (by omega)]
        simp [show p.length + 1 + k - p.length = k + 1 by omega]
      rw [h2]
      intro hc
      exact h (hc ▸ List.getElem_mem hlt)
    show find_suffix (p ++ '.' :: q) ((p.length + 1 + k) + 1) = some p.length
    simp only [find_suffix, hne, if_false]
    exact ih (by omega)

theorem find_suffix_last (p q : List Char) (h : '.' ∉ q) :
    find_suffix (p ++ '.' :: q) (p ++ '.' :: q).length = some p.length := by
  have := find_suffix_last_aux p q h q.length (le_refl _)
  have e : (p ++ '.' :: q).length = p.length + 1 + q.length := by simp; omega
  rw [e]
  exact this

theorem last_dot_text_none (b : List Char) (h : '.' ∉ b) : last_dot_text b = none := by
  induction b with
  | nil => rfl
  | cons c cs ih =>
    have hc : c ≠ '.' := fun e => h (by simp [e])
    have hcs : '.' ∉ cs := fun e => h (by simp [e])
    simp [last_dot_text, ih hcs, hc]

theorem last_dot_text_split (p q : List Char) (h : '.' ∉ q) :
    last_dot_text (p ++ '.' :: q) = some ('.' :: q) := by
  induction p with
  | nil => simp [last_dot_text, last_dot_text_none q h]
  | cons c cs ih => simp [last_dot_text, ih]

theorem split_last_dot (b : List Char) :
    '.' ∉ b ∨ ∃ p q, b = p ++ '.' :: q ∧ '.' ∉ q := by
  induction b with
  | nil => left; simp
  | cons c cs ih =>
    rcases ih with h | ⟨p, q, hpq, hq⟩
    · by_cases hc : c = '.'
      · right; exact ⟨[], cs, by simp [hc], h⟩
      · left
        simp only [List.mem_cons, not_or]
        exact ⟨fun e => hc e.symm, h⟩
    · right; exact ⟨c :: p, q, by simp [hpq], hq⟩

theorem has_so_suffix_split (p q : List Char) (h : '.' ∉ q) :
    has_so_suffix (p ++ '.' :: q) (p ++ '.' :: q).length = true ↔ '.' :: q = dot_so := by
  unfold has_so_suffix
  rw [find_suffix_last p q h]
  simp only [Bool.and_eq_true, decide_eq_true_eq, strncmp_eq, List.drop_left, beq_iff_eq]
  constructor
  · rintro ⟨h1, h2⟩
    have hq : q.length = 2 := by simp at h1; omega
    rw [List.take_of_length_le (by simp [hq])] at h2
    simpa [dot_so] using h2
  · intro e
    have hq : q = ['s', 'o'] := by simpa [dot_so] using e
    subst hq
    simp [dot_so]

theorem has_so_suffix_iff (b : List Char) :
    has_so_suffix b b.length = true ↔ last_dot_text b = some dot_so := by
  rcases split_last_dot b with h | ⟨p, q, rfl, hq⟩
  · simp [has_so_suffix, find_suffix_none b _ h, last_dot_text_none b h]
  · rw [has_so_suffix_split p q hq, last_dot_text_split p q hq]
    simp

theorem last_dot_text_so_iff (b : List Char) :
    last_dot_text b = some dot_so ↔ ∃ stem, b = stem ++ dot_so := by
  constructor
  · intro h
    rcases split_last_dot b with h1 | ⟨p, q, rfl, hq⟩
    · rw [last_dot_text_none b h1] at h; exact absurd h (by simp)
    · rw [last_dot_text_split p q hq] at h
      exact ⟨p, by simp at h; rw [h]⟩
  · rintro ⟨stem, rfl⟩
    exact last_dot_text_split stem ['s', 'o'] (by decide)

theorem lib_stem_length (stem : List Char)
    (h : strncmp_eq (stem ++ dot_so) str_lib 3 = true) : 3 ≤ stem.length := by
  match stem, h with
  | [], h => exact absurd h (by decide)
  | [a], h => simp [strncmp_eq, dot_so, str_lib] at h
  | [a, b], h => simp [strncmp_eq, dot_so, str_lib] at h
  | _ :: _ :: _ :: _, _ => simp

theorem not_mem_append_of {c : Char} {s t : List Char} (hs : c ∉ s) (ht : c ∉ t) :
    c ∉ s ++ t := by
  simp [hs, ht]

theorem collect_basenames_so (stem : List Char) (hn : NUL ∉ stem) :
    (collect_basenames [] (stem ++ dot_so) (stem ++ dot_so).length).1.map member.string =
      (stem ++ dot_so) ::
        ((if strncmp_eq (stem ++ dot_so) str_lib 3 = true
          then [str_cyg ++ stem.drop 3 ++ dot_dll] else []) ++ [stem ++ dot_dll]) ∧
    (collect_basenames [] (stem ++ dot_so) (stem ++ dot_so).length).2 = true := by
  have hso : has_so_suffix (stem ++ dot_so) (stem ++ dot_so).length = true :=
    (has_so_suffix_iff _).2 ((last_dot_text_so_iff _).2 ⟨stem, rfl⟩)
  have hfs : find_suffix (stem ++ dot_so) (stem ++ dot_so).length = some stem.length :=
    find_suffix_last stem ['s', 'o'] (by decide)
  have hlen : (stem ++ dot_so).length = stem.length + 3 := by simp [dot_so]
  have hn1 : NUL ∉ stem ++ dot_so := not_mem_append_of hn (by decide)
  have hn2 : NUL ∉ stem ++ dot_dll := not_mem_append_of hn (by decide)
  have hn3 : NUL ∉ str_cyg ++ (stem.drop 3 ++ dot_dll) :=
    not_mem_append_of (by decide)
      (not_mem_append_of (fun h => hn (List.mem_of_mem_drop h)) (by decide))
  have hdll : dot_dll.take 4 = dot_dll := rfl
  have hcyg : str_cyg.take 3 = str_cyg := rfl
  have c1 : concat_parts [(stem ++ dot_so, (stem ++ dot_so).length)] = stem ++ dot_so := by
    simp [concat_parts]
  have c3 : concat_parts [(stem ++ dot_so, (stem ++ dot_so).length - 3), (dot_dll, 4)]
      = stem ++ dot_dll := by
    simp [concat_parts, hlen, hdll]
  refine ⟨?_, ?_⟩
  · by_cases hl : strncmp_eq (stem ++ dot_so) str_lib 3 = true
    · have h3 := lib_stem_length stem hl
      have c2 : concat_parts [(str_cyg, 3),
          ((stem ++ dot_so).drop 3, (stem ++ dot_so).length - 3 - 3), (dot_dll, 4)]
          = str_cyg ++ (stem.drop 3 ++ dot_dll) := by
        have e1 : (stem ++ dot_so).drop 3 = stem.drop 3 ++ dot_so := by
          rw [List.drop_append_of_le_length h3]
        have e2 : (stem ++ dot_so).length - 3 - 3 = (stem.drop 3).length := by
          simp [hlen]
        simp only [concat_parts, e1, e2, List.take_left, hdll, hcyg, List.append_nil]
      simp only [collect_basenames, hso, hl, if_true, appendv, List.nil_append,
        List.cons_append, List.map_cons, List.map_nil]
      rw [member_string_create _ (c1.symm ▸ hn1), member_string_create _ (c2.symm ▸ hn3),
        member_string_create _ (c3.symm ▸ hn2), c1, c2, c3]
      simp
    · have hl2 : strncmp_eq (stem ++ dot_so) str_lib 3 = false := by simpa using hl
      simp only [collect_basenames, hso, hl2, if_true, appendv, List.nil_append,
        List.cons_append, List.map_cons, List.map_nil, Bool.false_eq_true, if_false]
      rw [member_string_create _ (c1.symm ▸ hn1),
        member_string_create _ (c3.symm ▸ hn2), c1, c3]
  · simp only [collect_basenames]
    rw [hfs]
    rfl

theorem collect_basenames_not_so (b : List Char) (hn : NUL ∉ b)
    (h : has_so_suffix b b.length = false) :
    (collect_basenames [] b b.length).1.map member.string =
      (if strncmp_eq b str_lib 3 = true then [str_cyg ++ b.drop 3] else []) ++ [b] ∧
    (collect_basenames [] b b.length).2 = (find_suffix b b.length).isSome := by
  have hn3 : NUL ∉ str_cyg ++ b.drop 3 :=
    not_mem_append_of (by decide) (fun h => hn (List.mem_of_mem_drop h))
  have hcyg : str_cyg.take 3 = str_cyg := rfl
  have hext : ∀ k : Nat, List.take k ([] : List Char) = [] := fun k => by simp
  have c2 : ∀ k : Nat, concat_parts [(str_cyg, 3), (b.drop 3, b.length - 3), ([], k)]
      = str_cyg ++ b.drop 3 := by
    intro k
    have e : b.length - 3 = (b.drop 3).length := by simp
    simp only [concat_parts, e, List.take_length, hcyg, hext, List.append_nil]
  have c3 : ∀ k : Nat, concat_parts [(b, b.length), ([], k)] = b := by
    intro k
    simp [concat_parts]
  refine ⟨?_, ?_⟩
  · by_cases hl : strncmp_eq b str_lib 3 = true
    · simp only [collect_basenames, h, hl, if_true, appendv, List.nil_append,
        List.cons_append, List.map_cons, List.map_nil, Bool.false_eq_true, if_false]
      rw [member_string_create _ ((c2 _).symm ▸ hn3),
        member_string_create _ ((c3 _).symm ▸ hn), c2, c3]
    · have hl2 : strncmp_eq b str_lib 3 = false := by simpa using hl
      simp only [collect_basenames, h, hl2, appendv, List.nil_append,
        List.cons_append, List.map_cons, List.map_nil, Bool.false_eq_true, if_false]
      rw [member_string_create _ ((c3 _).symm ▸ hn), c3]
  · simp [collect_basenames]

/-! ## Candidate generation -/

/-- C1: for every string `s` (a C string, so without NUL), `collect_basenames` applied to the
basename `"lib" ++ s ++ ".so"` with its length produces exactly the three candidates
`"lib" ++ s ++ ".so"`, `"cyg" ++ s ++ ".dll"`, `"lib" ++ s ++ ".dll"`, in that order, and
returns true. -/
theorem collect_basenames_lib_so (s : List Char) (hs : NUL ∉ s) :
    (collect_basenames [] (str_lib ++ s ++ dot_so)
        (str_lib ++ s ++ dot_so).length).1.map member.string =
      [str_lib ++ s ++ dot_so, str_cyg ++ s ++ dot_dll, str_lib ++ s ++ dot_dll] ∧
    (collect_basenames [] (str_lib ++ s ++ dot_so) (str_lib ++ s ++ dot_so).length).2 = true := by
  have hn : NUL ∉ str_lib ++ s := not_mem_append_of (by decide) hs
  have hl : strncmp_eq (str_lib ++ s ++ dot_so) str_lib 3 = true := by
    simp [strncmp_eq, str_lib]
  have h := collect_basenames_so (str_lib ++ s) hn
  rw [if_pos hl] at h
  have hd : (str_lib ++ s).drop 3 = s := by simp [str_lib]
  rw [hd] at h
  exact h

/-- Witness of C1: `"libfoo.so"` yields `"libfoo.so"`, `"cygfoo.dll"`, `"libfoo.dll"`. -/
theorem collect_basenames_lib_so_witness :
    NUL ∉ "foo".toList ∧
    (collect_basenames [] "libfoo.so".toList 9).1.map member.string =
      ["libfoo.so".toList, "cygfoo.dll".toList, "libfoo.dll".toList] ∧
    (collect_basenames [] "libfoo.so".toList 9).2 = true :=
  ⟨by decide, collect_basenames_lib_so "foo".toList (by decide)⟩

/-- C10: for every basename `b` (a C string), `collect_basenames` emits the unchanged
original first and a candidate with `".so"` replaced by `".dll"` last exactly when the
text of `b` from its last `.` to its end is `".so"`; otherwise the candidates are `b`
alone, preceded by `"cyg"` in place of `"lib"` when `b` starts with `"lib"`, all with the
suffix of `b` unchanged. -/
theorem collect_basenames_so_iff (b : List Char) (hb : NUL ∉ b) :
    (last_dot_text b = some dot_so →
      b = b.take (b.length - 3) ++ dot_so ∧
        (collect_basenames [] b b.length).1.map member.string =
          b :: ((if strncmp_eq b str_lib 3 = true
            then [str_cyg ++ (b.take (b.length - 3)).drop 3 ++ dot_dll] else []) ++
            [b.take (b.length - 3) ++ dot_dll])) ∧
    (last_dot_text b ≠ some dot_so →
      (collect_basenames [] b b.length).1.map member.string =
        (if strncmp_eq b str_lib 3 = true then [str_cyg ++ b.drop 3] else []) ++ [b]) := by
  constructor
  · intro h
    obtain ⟨stem, rfl⟩ := (last_dot_text_so_iff b).1 h
    have hn : NUL ∉ stem := fun e => hb (List.mem_append_left _ e)
    have ht : (stem ++ dot_so).take ((stem ++ dot_so).length - 3) = stem := by
      simp [dot_so]
    rw [ht]
    exact ⟨rfl, (collect_basenames_so stem hn).1⟩
  · intro h
    have hso : has_so_suffix b b.length = false := by
      have := mt (has_so_suffix_iff b).1 h
      simpa using this
    exact (collect_basenames_not_so b hb hso).1

/-- Witness of C10: `"foo.bar.so"` yields `"foo.bar.so"` then `"foo.bar.dll"`, while
`"libfoo.so.1"` and `"foo.SO"` keep their suffix. -/
theorem collect_basenames_so_iff_witness :
    (NUL ∉ "foo.bar.so".toList ∧
      (collect_basenames [] "foo.bar.so".toList 10).1.map member.string =
        ["foo.bar.so".toList, "foo.bar.dll".toList]) ∧
    (NUL ∉ "libfoo.so.1".toList ∧
      (collect_basenames [] "libfoo.so.1".toList 11).1.map member.string =
        ["cygfoo.so.1".toList, "libfoo.so.1".toList]) ∧
    (NUL ∉ "foo.SO".toList ∧
      (collect_basenames [] "foo.SO".toList 6).1.map member.string = ["foo.SO".toList]) :=
  ⟨⟨by decide,
      ((collect_basenames_so_iff "foo.bar.so".toList (by decide)).1 (by decide)).2⟩,
   ⟨by decide, (collect_basenames_so_iff "libfoo.so.1".toList (by decide)).2 (by decide)⟩,
   ⟨by decide, (collect_basenames_so_iff "foo.SO".toList (by decide)).2 (by decide)⟩⟩

/-! ## The probe by basename -/

theorem cstr_append_nul (s rest : List Char) (hs : NUL ∉ s) : cstr (s ++ NUL :: rest) = s := by
  induction s with
  | nil => simp [cstr]
  | cons c cs ih =>
    have hc : c ≠ NUL := fun h => hs (by simp [h])
    have hcs : NUL ∉ cs := fun h => hs (by simp [h])
    have := ih hcs
    simp only [cstr] at this ⊢
    simp [List.takeWhile_cons, hc, this]

theorem set_length_append (s rest : List Char) (a c : Char) :
    (s ++ a :: rest).set s.length c = s ++ c :: rest := by
  induction s with
  | nil => rfl
  | cons x xs ih => simp [List.set, ih]

theorem reserves_dot_probe (m : member) (h : m.reserves_dot) :
    cstr (m.poke m.stringlength '.').buffer = m.string ++ ['.'] ∧
    (m.poke m.stringlength '.').poke m.stringlength NUL = m := by
  obtain ⟨s, rest, hs, hb, hl⟩ := h
  cases m with
  | mk buffer stringlength bufferlength =>
    simp only at hb hl
    subst hb hl
    simp only [member.poke, member.string, set_length_append]
    refine ⟨?_, trivial⟩
    rw [cstr_append_nul s _ hs]
    have h2 : NUL ∉ s ++ ['.'] := not_mem_append_of hs (by decide)
    have := cstr_append_nul (s ++ ['.']) rest h2
    simpa using this

theorem find_loaded_basename_no_suffix (H : Host σ) (gmheflags : Nat)
    (cands : List member) (h : ∀ m ∈ cands, m.reserves_dot) (w : World σ) :
    (find_loaded_basename H false gmheflags cands w).2.1 = cands ∧
    ∃ k, (cands ≠ [] → 0 < k) ∧ k ≤ cands.length ∧
      (find_loaded_basename H false gmheflags cands w).2.2.trace =
        w.trace ++ (cands.take k).map
          (fun c => Call.GetModuleHandleExA gmheflags (c.string ++ ['.'])) ∧
      ((find_loaded_basename H false gmheflags cands w).1 = 0 → k = cands.length) := by
  induction cands generalizing w with
  | nil => exact ⟨rfl, 0, by simp, by simp, by simp [find_loaded_basename], by simp⟩
  | cons bn rest ih =>
    have hbn := reserves_dot_probe bn (h bn (by simp))
    have hrest : ∀ m ∈ rest, m.reserves_dot := fun m hm => h m (by simp [hm])
    simp only [find_loaded_basename, Bool.not_false, if_true, hbn.1, hbn.2]
    split
    · refine ⟨rfl, 1, by simp, by simp, ?_, ?_⟩
      · simp [World.call]
      · intro h0; contradiction
    · rename_i hz
      obtain ⟨e1, k, _, hk, ht, h0⟩ := ih hrest
        (w.call (.GetModuleHandleExA gmheflags (bn.string ++ ['.']))
          (H.GetModuleHandleExA gmheflags (bn.string ++ ['.']))).2
      refine ⟨by rw [e1], k + 1, by simp, by simp; omega, ?_, ?_⟩
      · rw [ht]
        simp [World.call]
      · intro hr
        simp [h0 hr]

theorem create_reserves_dot (parts : List (List Char × Nat)) (hn : NUL ∉ concat_parts parts)
    (hl : sum_partlens parts = (concat_parts parts).length + 1) :
    (member.create parts).reserves_dot := by
  refine ⟨concat_parts parts, [], hn, ?_, rfl⟩
  simp only [member.create, hl]
  have : (concat_parts parts).length + 1 + 1 - (concat_parts parts).length = 2 := by omega
  rw [this]
  rfl

theorem collect_basenames_no_dot (b : List Char) (hdot : '.' ∉ b) (hn : NUL ∉ b) :
    (collect_basenames [] b b.length).2 = false ∧
    (∀ m ∈ (collect_basenames [] b b.length).1, m.reserves_dot) ∧
    (collect_basenames [] b b.length).1.map member.string =
      (if strncmp_eq b str_lib 3 = true then [str_cyg ++ b.drop 3] else []) ++ [b] := by
  have hfs := find_suffix_none b b.length hdot
  have hso : has_so_suffix b b.length = false := by simp [has_so_suffix, hfs]
  have h := collect_basenames_not_so b hn hso
  refine ⟨by rw [h.2, hfs]; rfl, ?_, h.1⟩
  have hn3 : NUL ∉ str_cyg ++ b.drop 3 :=
    not_mem_append_of (by decide) (fun h => hn (List.mem_of_mem_drop h))
  have hcyg : str_cyg.take 3 = str_cyg := rfl
  have c2 : concat_parts [(str_cyg, 3), (b.drop 3, b.length - 3), ([], 1)]
      = str_cyg ++ b.drop 3 := by
    have e : b.length - 3 = (b.drop 3).length := by simp
    simp only [concat_parts, e, List.take_length, hcyg, List.take_nil, List.append_nil]
  have c3 : concat_parts [(b, b.length), ([], 1)] = b := by simp [concat_parts]
  have r2 : (member.create [(str_cyg, 3), (b.drop 3, b.length - 3), ([], 1)]).reserves_dot := by
    apply create_reserves_dot
    · rw [c2]; exact hn3
    · rw [c2]; simp [sum_partlens, str_cyg]; omega
  have r3 : (member.create [(b, b.length), ([], 1)]).reserves_dot := by
    apply create_reserves_dot
    · rw [c3]; exact hn
    · rw [c3]; simp [sum_partlens]
  intro m hm
  by_cases hl : strncmp_eq b str_lib 3 = true
  · simp only [collect_basenames, hso, hfs, hl, if_true, appendv, List.nil_append,
      List.cons_append, Bool.false_eq_true, if_false, Option.isSome_none,
      List.mem_cons, List.mem_singleton, List.not_mem_nil, or_false] at hm
    rcases hm with rfl | rfl
    · exact r2
    · exact r3
  · have hl2 : strncmp_eq b str_lib 3 = false := by simpa using hl
    simp only [collect_basenames, hso, hfs, hl2, appendv, List.nil_append,
      List.cons_append, Bool.false_eq_true, if_false, Option.isSome_none,
      List.mem_cons, List.mem_singleton, List.not_mem_nil, or_false] at hm
    subst hm
    exact r3

/-- C6: for every basename `b` (a C string) without `.`, `collect_basenames` returns false,
the candidates contain `b` itself, and `find_loaded_basename` with `have_suffix = false`
asks the loader for the candidates in their order under the names `c ++ "."`, up to the
first one found and for all of them when none is found, and leaves every candidate as
it was (its text reads `c` again). -/
theorem find_loaded_basename_trailing_dot (H : Host σ) (gmheflags : Nat) (w : World σ)
    (b : List Char) (hdot : '.' ∉ b) (hn : NUL ∉ b) :
    (collect_basenames [] b b.length).2 = false ∧
    b ∈ (collect_basenames [] b b.length).1.map member.string ∧
    (find_loaded_basename H false gmheflags (collect_basenames [] b b.length).1 w).2.1 =
      (collect_basenames [] b b.length).1 ∧
    ∃ k, 0 < k ∧ k ≤ (collect_basenames [] b b.length).1.length ∧
      (find_loaded_basename H false gmheflags
          (collect_basenames [] b b.length).1 w).2.2.trace =
        w.trace ++ ((collect_basenames [] b b.length).1.take k).map
          (fun c => Call.GetModuleHandleExA gmheflags (c.string ++ ['.'])) ∧
      ((find_loaded_basename H false gmheflags (collect_basenames [] b b.length).1 w).1 = 0 →
        k = (collect_basenames [] b b.length).1.length) := by
  obtain ⟨h1, h2, h3⟩ := collect_basenames_no_dot b hdot hn
  obtain ⟨e, k, hk0, hk, ht, hz⟩ :=
    find_loaded_basename_no_suffix H gmheflags (collect_basenames [] b b.length).1 h2 w
  refine ⟨h1, ?_, e, k, hk0 ?_, hk, ht, hz⟩
  · rw [h3]; simp
  · intro hnil
    have := congrArg (List.map member.string) hnil
    rw [h3] at this
    simp at this

/-- Witness of C6: `"foo"` is probed as `"foo."`. -/
theorem find_loaded_basename_trailing_dot_witness :
    ('.' ∉ "foo".toList ∧ NUL ∉ "foo".toList) ∧
    (collect_basenames [] "foo".toList 3).2 = false ∧
    "foo".toList ∈ (collect_basenames [] "foo".toList 3).1.map member.string ∧
    (find_loaded_basename exampleHost false 0
        (collect_basenames [] "foo".toList 3).1 exampleThread.world).2.2.trace =
      [Call.GetModuleHandleExA 0 "foo.".toList] := by
  obtain ⟨h1, h2, _, k, hk0, hk, ht, _⟩ :=
    find_loaded_basename_trailing_dot exampleHost 0 exampleThread.world "foo".toList
      (by decide) (by decide)
  refine ⟨⟨by decide, by decide⟩, h1, h2, ?_⟩
  have hk1 : k = 1 := by
    have : (collect_basenames [] "foo".toList "foo".toList.length).1.length = 1 := by decide
    omega
  subst hk1
  exact ht

/-! ## Traces -/

theorem trace_extends_refl (P : Call → Bool) (w : World σ) : trace_extends P w w :=
  ⟨[], by simp, by simp⟩

theorem trace_extends_trans {P : Call → Bool} {u v w : World σ}
    (h1 : trace_extends P u v) (h2 : trace_extends P v w) : trace_extends P u w := by
  obtain ⟨t1, e1, p1⟩ := h1
  obtain ⟨t2, e2, p2⟩ := h2
  refine ⟨t1 ++ t2, by rw [e2, e1, List.append_assoc], ?_⟩
  intro e he
  rcases List.mem_append.1 he with h | h
  · exact p1 e h
  · exact p2 e h

theorem trace_extends_mono {P Q : Call → Bool} (hPQ : ∀ e, P e = true → Q e = true)
    {u v : World σ} (h : trace_extends P u v) : trace_extends Q u v := by
  obtain ⟨t, e, p⟩ := h
  exact ⟨t, e, fun x hx => hPQ x (p x hx)⟩

theorem trace_extends_call {α : Type} (P : Call → Bool) (w : World σ) (c : Call)
    (f : σ → α × σ) (hc : P c = true) : trace_extends P w (w.call c f).2 :=
  ⟨[c], rfl, by simpa using hc⟩

theorem trace_extends_log (P : Call → Bool) (w : World σ) (c : Call) (hc : P c = true) :
    trace_extends P w (w.log c) :=
  ⟨[c], rfl, by simpa using hc⟩

theorem trace_extends_update (P : Call → Bool) (w : World σ) (f : σ → σ) :
    trace_extends P w (w.update f) :=
  ⟨[], by simp [World.update], by simp⟩

theorem isProbe_isQuiet (e : Call) (h : e.isProbe = true) : e.isQuiet = true := by
  cases e with
  | pathfinder_find c =>
    cases c <;> simp_all [Call.isProbe, Call.isQuiet, Call.isNativeLoad, Call.isFsSearch]
  | _ => simp_all [Call.isProbe, Call.isQuiet, Call.isNativeLoad, Call.isFsSearch]

theorem isProbe_noSearchdir (e : Call) (h : e.isProbe = true) : e.noSearchdir = true := by
  cases e <;> simp_all [Call.isProbe, Call.noSearchdir, Call.searchdir]

theorem native_loads_of_quiet {u v : World σ} (h : trace_extends Call.isQuiet u v) :
    native_loads v = native_loads u ∧ fs_searches v = fs_searches u := by
  obtain ⟨t, e, p⟩ := h
  have h1 : t.countP Call.isNativeLoad = 0 := by
    rw [List.countP_eq_zero]
    intro x hx
    have := p x hx
    simp only [Call.isQuiet, Bool.and_eq_true, Bool.not_eq_true'] at this
    simp [this.1]
  have h2 : t.countP Call.isFsSearch = 0 := by
    rw [List.countP_eq_zero]
    intro x hx
    have := p x hx
    simp only [Call.isQuiet, Bool.and_eq_true, Bool.not_eq_true'] at this
    simp [this.2]
  simp [native_loads, fs_searches, e, List.countP_append, h1, h2]

theorem searchdirs_of_noSearchdir {u v : World σ} (h : trace_extends Call.noSearchdir u v) :
    searchdirs_of v = searchdirs_of u := by
  obtain ⟨t, e, p⟩ := h
  have h1 : t.filterMap Call.searchdir = [] := by
    rw [List.filterMap_eq_nil_iff]
    intro x hx
    have := p x hx
    simpa [Call.noSearchdir] using this
  simp [searchdirs_of, e, List.filterMap_append, h1]

theorem find_loaded_basename_probe (H : Host σ) (have_suffix : Bool) (gmheflags : Nat)
    (cands : List member) (w : World σ) :
    trace_extends Call.isProbe w (find_loaded_basename H have_suffix gmheflags cands w).2.2 := by
  induction cands generalizing w with
  | nil => exact trace_extends_refl _ _
  | cons bn rest ih =>
    cases have_suffix <;>
    · simp only [find_loaded_basename, Bool.not_false, Bool.not_true, if_true,
        Bool.false_eq_true, if_false]
      split
      · exact trace_extends_call _ _ _ _ (by rfl)
      · exact trace_extends_trans (trace_extends_call _ _ _ _ (by rfl)) (ih _)

theorem loaded_test_loop_probe (H : Host σ) (have_suffix : Bool) (gmheflags : Nat)
    (filename : List Char) (n symflag : Nat) (f : Frame σ) :
    trace_extends Call.isProbe f.world
      (loaded_test_loop H have_suffix gmheflags filename n symflag f).2.world := by
  induction n generalizing symflag f with
  | zero => exact trace_extends_refl _ _
  | succ n ih =>
    simp only [loaded_test_loop]
    split
    · exact trace_extends_refl _ _
    · split
      · exact trace_extends_call _ _ _ _ (by rfl)
      · split
        · exact trace_extends_trans (trace_extends_call _ _ _ _ (by rfl))
            (trace_extends_call _ _ _ _ (by rfl))
        · exact trace_extends_trans (trace_extends_trans (trace_extends_call _ _ _ _ (by rfl))
            (trace_extends_call _ _ _ _ (by rfl))) (ih _ _)

theorem find_in_dir_extends (P : Call → Bool) (test : List Char → Frame σ → Bool × Frame σ)
    (ht : ∀ fn f, trace_extends P f.world (test fn f).2.world)
    (dir : List Char) (cands : List member) (f : Frame σ) :
    trace_extends P f.world (find_in_dir test dir cands f).2.world := by
  induction cands generalizing f with
  | nil => exact trace_extends_refl _ _
  | cons bn rest ih =>
    simp only [find_in_dir]
    split
    · exact ht _ _
    · exact trace_extends_trans (ht _ _) (ih _)

theorem find_in_dirs_extends (P : Call → Bool) (test : List Char → Frame σ → Bool × Frame σ)
    (ht : ∀ fn f, trace_extends P f.world (test fn f).2.world)
    (cands : List member) (dirs : List (List Char)) (f : Frame σ) :
    trace_extends P f.world (find_in_dirs test cands dirs f).2.world := by
  induction dirs generalizing f with
  | nil => exact trace_extends_refl _ _
  | cons d ds ih =>
    simp only [find_in_dirs]
    split
    · exact find_in_dir_extends P test ht _ _ _
    · exact trace_extends_trans (find_in_dir_extends P test ht _ _ _) (ih _)

theorem find_loaded_fullname_probe (H : Host σ) (finder : pathfinder) (have_suffix : Bool)
    (gmheflags : Nat) (f : Frame σ) :
    trace_extends Call.isProbe f.world
      (find_loaded_fullname H finder have_suffix gmheflags f).world := by
  unfold find_loaded_fullname pathfinder.find
  exact trace_extends_trans
    (trace_extends_log Call.isProbe f.world (.pathfinder_find .loaded) rfl)
    (find_in_dirs_extends Call.isProbe _
      (fun fn g => loaded_test_loop_probe H have_suffix gmheflags fn 2 PC_POSIX g) _ _ _)

/-! ## The error slot -/

theorem dlopen_error_slot (H : Host σ) (name : Option (List Char)) (flags : Nat)
    (t : Thread σ) :
    ((dlopen H name flags t).1 = 0 →
      (dlopen H name flags t).2.dl_error = 1 ∧
      (dlopen H name flags t).2.dl_buffer =
        H.strerror (H.get_errno (dlopen H name flags t).2.world.os)) ∧
    ((dlopen H name flags t).1 ≠ 0 →
      (dlopen H name flags t).2.dl_error = t.dl_error ∧
      (dlopen H name flags t).2.dl_buffer = t.dl_buffer) := by
  unfold dlopen
  by_cases h : (dlopen_do H name flags t.world).1 = 0
  · simp [h, set_dl_error]
  · simp [h]

theorem dlsym_error_slot (H : Host σ) (handle : Nat) (name : List Char) (t : Thread σ) :
    ((dlsym H handle name t).1 = 0 →
      (dlsym H handle name t).2.dl_error = 1 ∧
      (dlsym H handle name t).2.dl_buffer =
        H.strerror (H.get_errno (dlsym H handle name t).2.world.os)) ∧
    ((dlsym H handle name t).1 ≠ 0 →
      (dlsym H handle name t).2.dl_error = t.dl_error ∧
      (dlsym H handle name t).2.dl_buffer = t.dl_buffer) := by
  unfold dlsym
  dsimp only
  split_ifs <;> simp_all [set_dl_error]

theorem dlclose_error_slot (H : Host σ) (handle : Nat) (t : Thread σ) :
    ((dlclose H handle t).1 = -1 →
      (dlclose H handle t).2.dl_error = 1 ∧
      (dlclose H handle t).2.dl_buffer =
        H.strerror (H.get_errno (dlclose H handle t).2.world.os)) ∧
    ((dlclose H handle t).1 ≠ -1 →
      (dlclose H handle t).1 = 0 ∧
      (dlclose H handle t).2.dl_error = t.dl_error ∧
      (dlclose H handle t).2.dl_buffer = t.dl_buffer) := by
  unfold dlclose
  by_cases h1 : handle = (t.world.call .GetModuleHandle H.GetModuleHandle).1
  · simp [h1]
  · by_cases h2 : ((t.world.call .GetModuleHandle H.GetModuleHandle).2.call
        (.FreeLibrary handle) (H.FreeLibrary handle)).1 = true
    · simp [h1, h2]
    · simp [h1, h2, set_dl_error]

/-- C9: each of `dlopen`, `dlsym` and `dlclose`, on every input and every behaviour of the
collaborators, raises the error flag (and stores the message of the current `errno`)
when it returns its failure value (`NULL`, `NULL`, `-1`), and leaves the error flag and
the message exactly as they were when it returns anything else; `dlclose` returns
nothing but `0` and `-1`. -/
theorem error_slot_iff_failure (H : Host σ) (name : Option (List Char)) (flags : Nat)
    (handle : Nat) (symbol : List Char) (t : Thread σ) :
    (((dlopen H name flags t).1 = 0 → (dlopen H name flags t).2.dl_error = 1) ∧
     ((dlopen H name flags t).1 ≠ 0 →
        (dlopen H name flags t).2.dl_error = t.dl_error ∧
        (dlopen H name flags t).2.dl_buffer = t.dl_buffer)) ∧
    (((dlsym H handle symbol t).1 = 0 → (dlsym H handle symbol t).2.dl_error = 1) ∧
     ((dlsym H handle symbol t).1 ≠ 0 →
        (dlsym H handle symbol t).2.dl_error = t.dl_error ∧
        (dlsym H handle symbol t).2.dl_buffer = t.dl_buffer)) ∧
    (((dlclose H handle t).1 = -1 → (dlclose H handle t).2.dl_error = 1) ∧
     ((dlclose H handle t).1 ≠ -1 →
        (dlclose H handle t).1 = 0 ∧
        (dlclose H handle t).2.dl_error = t.dl_error ∧
        (dlclose H handle t).2.dl_buffer = t.dl_buffer)) :=
  ⟨⟨fun h => ((dlopen_error_slot H name flags t).1 h).1, (dlopen_error_slot H name flags t).2⟩,
   ⟨fun h => ((dlsym_error_slot H handle symbol t).1 h).1, (dlsym_error_slot H handle symbol t).2⟩,
   ⟨fun h => ((dlclose_error_slot H handle t).1 h).1, (dlclose_error_slot H handle t).2⟩⟩

/-- C7: for every state of the error slot, `dlerror` returns a message exactly when the
flag was raised, and the flag is down after the call; so after a failing `dlopen`,
`dlsym` or `dlclose` the first `dlerror` returns the stored message and the second
returns `NULL`. -/
theorem dlerror_consumes (H : Host σ) (name : Option (List Char)) (flags : Nat)
    (handle : Nat) (symbol : List Char) (t : Thread σ) :
    ((dlerror t).1 ≠ none ↔ t.dl_error ≠ 0) ∧
    (dlerror t).2.dl_error = 0 ∧
    ((dlopen H name flags t).1 = 0 →
      (dlerror (dlopen H name flags t).2).1 = some (dlopen H name flags t).2.dl_buffer ∧
      (dlerror (dlerror (dlopen H name flags t).2).2).1 = none) ∧
    ((dlsym H handle symbol t).1 = 0 →
      (dlerror (dlsym H handle symbol t).2).1 = some (dlsym H handle symbol t).2.dl_buffer ∧
      (dlerror (dlerror (dlsym H handle symbol t).2).2).1 = none) ∧
    ((dlclose H handle t).1 = -1 →
      (dlerror (dlclose H handle t).2).1 = some (dlclose H handle t).2.dl_buffer ∧
      (dlerror (dlerror (dlclose H handle t).2).2).1 = none) := by
  have key : ∀ s : Thread σ, s.dl_error = 1 →
      (dlerror s).1 = some s.dl_buffer ∧ (dlerror (dlerror s).2).1 = none := by
    intro s hs
    simp [dlerror, hs]
  refine ⟨?_, ?_, ?_, ?_, ?_⟩
  · unfold dlerror
    by_cases h : t.dl_error = 0 <;> simp [h]
  · unfold dlerror
    by_cases h : t.dl_error = 0 <;> simp [h]
  · exact fun h => key _ ((dlopen_error_slot H name flags t).1 h).1
  · exact fun h => key _ ((dlsym_error_slot H handle symbol t).1 h).1
  · exact fun h => key _ ((dlclose_error_slot H handle t).1 h).1

/-- Witness of C7: a failing `dlopen`, `dlsym` and `dlclose` on the fake host, each followed
by two calls of `dlerror`. -/
theorem dlerror_consumes_witness :
    ((dlopen exampleHost (some "nothere".toList) 0 exampleThread).1 = 0 ∧
      (dlerror (dlopen exampleHost (some "nothere".toList) 0 exampleThread).2).1
        = some (dlopen exampleHost (some "nothere".toList) 0 exampleThread).2.dl_buffer ∧
      (dlerror (dlerror
        (dlopen exampleHost (some "nothere".toList) 0 exampleThread).2).2).1 = none) ∧
    ((dlsym exampleHost 7 "f".toList exampleThread).1 = 0 ∧
      (dlerror (dlsym exampleHost 7 "f".toList exampleThread).2).1
        = some (dlsym exampleHost 7 "f".toList exampleThread).2.dl_buffer ∧
      (dlerror (dlerror (dlsym exampleHost 7 "f".toList exampleThread).2).2).1 = none) ∧
    ((dlclose exampleHost 7 exampleThread).1 = -1 ∧
      (dlerror (dlclose exampleHost 7 exampleThread).2).1
        = some (dlclose exampleHost 7 exampleThread).2.dl_buffer ∧
      (dlerror (dlerror (dlclose exampleHost 7 exampleThread).2).2).1 = none) :=
  ⟨⟨by decide,
    (dlerror_consumes exampleHost (some "nothere".toList) 0 7 "f".toList exampleThread).2.2.1
      (by decide)⟩,
   ⟨by decide,
    (dlerror_consumes exampleHost (some "nothere".toList) 0 7 "f".toList exampleThread).2.2.2.1
      (by decide)⟩,
   ⟨by decide,
    (dlerror_consumes exampleHost (some "nothere".toList) 0 7 "f".toList exampleThread).2.2.2.2
      (by decide)⟩⟩

/-! ## `spot_basename` -/

theorem strrchr_none (s : List Char) (c : Char) (h : c ∉ s) : strrchr s c = none := by
  induction s with
  | nil => rfl
  | cons x xs ih =>
    have hx : x ≠ c := fun e => h (by simp [e])
    have hxs : c ∉ xs := fun e => h (by simp [e])
    simp [strrchr, ih hxs, hx]

theorem strrchr_split (p q : List Char) (c : Char) (h : c ∉ q) :
    strrchr (p ++ c :: q) c = some p.length := by
  induction p with
  | nil => simp [strrchr, strrchr_none q c h]
  | cons x xs ih => simp [strrchr, ih]

theorem spot_basename_no_dir (name : List Char) (h : '/' ∉ name) :
    spot_basename name = { basename_off := 0, baselen := name.length, have_dir := false } := by
  simp [spot_basename, strrchr_none name '/' h]

theorem spot_basename_dir (D b : List Char) (h : '/' ∉ b) :
    spot_basename (D ++ '/' :: b) =
      { basename_off := D.length + 1, baselen := b.length, have_dir := true } := by
  have e : (D ++ '/' :: b).length - (D.length + 1) = b.length := by
    simp only [List.length_append, List.length_cons]
    omega
  simp only [spot_basename, strrchr_split D b '/' h, e]
  simp

/-! ## The probe decides -/

theorem get_exedir_quiet (H : Host σ) (w : World σ) :
    trace_extends Call.isQuiet w (get_exedir H w).world ∧
    trace_extends Call.noSearchdir w (get_exedir H w).world := by
  unfold get_exedir
  split
  · exact ⟨trace_extends_refl _ _, trace_extends_refl _ _⟩
  · dsimp only
    split <;>
      exact ⟨trace_extends_call _ _ _ _ (by rfl), trace_extends_call _ _ _ _ (by rfl)⟩

theorem dlopen_add_dirs_quiet (H : Host σ) (finder : pathfinder) (name : List Char)
    (dirlen : Nat) (f : Frame σ) :
    trace_extends Call.isQuiet f.world (dlopen_add_dirs H finder name dirlen f).2.world := by
  unfold dlopen_add_dirs pathfinder.add_searchdir
  dsimp only
  split_ifs
  · exact trace_extends_trans (trace_extends_trans (get_exedir_quiet H f.world).1
      (trace_extends_log _ _ _ (by rfl))) (trace_extends_log _ _ _ (by rfl))
  · exact trace_extends_trans (get_exedir_quiet H f.world).1 (trace_extends_log _ _ _ (by rfl))
  · exact trace_extends_log _ _ _ (by rfl)

theorem probe_loaded_quiet (H : Host σ) (name : List Char) (flags : Nat) (w : World σ) :
    trace_extends Call.isQuiet w (probe_loaded H name flags w).2 := by
  unfold probe_loaded
  dsimp only
  split_ifs
  · exact trace_extends_mono isProbe_isQuiet (find_loaded_basename_probe H _ _ _ w)
  · exact trace_extends_trans (dlopen_add_dirs_quiet H _ name _ _)
      (trace_extends_mono isProbe_isQuiet (find_loaded_fullname_probe H _ _ _ _))

theorem dlopen_do_of_probe (H : Host σ) (name : List Char) (flags : Nat) (w : World σ)
    (hne : name ≠ [])
    (h : (probe_loaded H name flags w).1 ≠ 0 ∨ flag_set flags RTLD_NOLOAD = true) :
    dlopen_do H (some name) flags w = probe_loaded H name flags w := by
  have h1 : ¬ ((some name : Option (List Char)) = none ∨ some name = some []) := by
    simp [hne]
  unfold dlopen_do
  rw [if_neg h1]
  unfold probe_loaded at h ⊢
  dsimp only [Option.getD_some] at h ⊢
  by_cases hd : (spot_basename name).have_dir = true
  · simp only [hd, Bool.not_true, Bool.false_eq_true, if_false, dlopen_find, if_true] at h ⊢
    rw [if_pos h]
  · have hd2 : (spot_basename name).have_dir = false := by simpa using hd
    simp only [hd2, Bool.not_false, if_true] at h ⊢
    rw [if_pos h]

/-- C4: for every non-empty name, if the already-loaded probe (by candidate basename when
the name has no `/`, by directory-qualified path otherwise) yields a handle that is not
`NULL`, then `dlopen` returns exactly that handle, starts no file system search, makes
no native load and leaves the error flag and message unchanged. -/
theorem dlopen_already_loaded (H : Host σ) (name : List Char) (flags : Nat) (t : Thread σ)
    (hne : name ≠ []) (h : (probe_loaded H name flags t.world).1 ≠ 0) :
    (dlopen H (some name) flags t).1 = (probe_loaded H name flags t.world).1 ∧
    fs_searches (dlopen H (some name) flags t).2.world = fs_searches t.world ∧
    native_loads (dlopen H (some name) flags t).2.world = native_loads t.world ∧
    (dlopen H (some name) flags t).2.dl_error = t.dl_error ∧
    (dlopen H (some name) flags t).2.dl_buffer = t.dl_buffer := by
  have e := dlopen_do_of_probe H name flags t.world hne (Or.inl h)
  have q := native_loads_of_quiet (probe_loaded_quiet H name flags t.world)
  unfold dlopen
  rw [e, if_neg h]
  exact ⟨rfl, q.2, q.1, rfl, rfl⟩

/-- Witness of C4: on the fake host, after `foo` has been loaded, the probe for `foo` finds
it and `dlopen` returns its handle. -/
theorem dlopen_already_loaded_witness :
    ("foo".toList ≠ [] ∧
      (probe_loaded exampleHost "foo".toList 0
        (dlopen exampleHost (some "foo".toList) 0 exampleThread).2.world).1 ≠ 0) ∧
    (dlopen exampleHost (some "foo".toList) 0
        (dlopen exampleHost (some "foo".toList) 0 exampleThread).2).1 = 2 ∧
    native_loads (dlopen exampleHost (some "foo".toList) 0
        (dlopen exampleHost (some "foo".toList) 0 exampleThread).2).2.world =
      native_loads (dlopen exampleHost (some "foo".toList) 0 exampleThread).2.world := by
  have h := dlopen_already_loaded exampleHost "foo".toList 0
    (dlopen exampleHost (some "foo".toList) 0 exampleThread).2 (by decide) (by decide)
  refine ⟨⟨by decide, by decide⟩, ?_, h.2.2.1⟩
  rw [h.1]
  decide

/-- C3: for every non-empty name and every state of the loader, `dlopen` with `RTLD_NOLOAD`
makes no native load and starts no file system search; it returns what the
already-loaded probe yields, so when the probe finds nothing it returns `NULL` with the
error flag raised. -/
theorem dlopen_noload (H : Host σ) (name : List Char) (flags : Nat) (t : Thread σ)
    (hne : name ≠ []) (hf : flag_set flags RTLD_NOLOAD = true) :
    native_loads (dlopen H (some name) flags t).2.world = native_loads t.world ∧
    fs_searches (dlopen H (some name) flags t).2.world = fs_searches t.world ∧
    (dlopen H (some name) flags t).1 = (probe_loaded H name flags t.world).1 ∧
    ((probe_loaded H name flags t.world).1 = 0 →
      (dlopen H (some name) flags t).1 = 0 ∧ (dlopen H (some name) flags t).2.dl_error = 1) := by
  have e := dlopen_do_of_probe H name flags t.world hne (Or.inr hf)
  have q := native_loads_of_quiet (probe_loaded_quiet H name flags t.world)
  unfold dlopen
  rw [e]
  by_cases h : (probe_loaded H name flags t.world).1 = 0
  · rw [if_pos h]
    exact ⟨q.1, q.2, rfl, fun _ => ⟨h, rfl⟩⟩
  · rw [if_neg h]
    exact ⟨q.1, q.2, rfl, fun h0 => absurd h0 h⟩

/-- Witness of C3: on the fake host, `dlopen ("nothere", RTLD_NOLOAD)` and
`dlopen ("/usr/lib/libz.so", RTLD_NOLOAD)` with nothing loaded return `NULL`, raise the
error flag and load nothing. -/
theorem dlopen_noload_witness :
    ("nothere".toList ≠ [] ∧ flag_set 16 RTLD_NOLOAD = true ∧
      (probe_loaded exampleHost "nothere".toList 16 exampleThread.world).1 = 0) ∧
    ((dlopen exampleHost (some "nothere".toList) 16 exampleThread).1 = 0 ∧
      (dlopen exampleHost (some "nothere".toList) 16 exampleThread).2.dl_error = 1) ∧
    native_loads (dlopen exampleHost (some "/usr/lib/libz.so".toList) 16 exampleThread).2.world
      = native_loads exampleThread.world :=
  ⟨⟨by decide, by decide, by decide⟩,
   (dlopen_noload exampleHost "nothere".toList 16 exampleThread (by decide) (by decide)).2.2.2
     (by decide),
   (dlopen_noload exampleHost "/usr/lib/libz.so".toList 16 exampleThread
     (by decide) (by decide)).1⟩

/-! ## Reopening -/

theorem dlopen_world (H : Host σ) (name : Option (List Char)) (flags : Nat) (t : Thread σ) :
    (dlopen H name flags t).2.world = (dlopen_do H name flags t.world).2 := by
  unfold dlopen
  dsimp only
  split <;> rfl

/-- C8: for every handle equal to the handle of the running image (`GetModuleHandle (NULL)`),
`dlclose` returns `0`, makes no native unload (`FreeLibrary`) and leaves the error flag and
message unchanged. -/
theorem dlclose_own_image (H : Host σ) (handle : Nat) (t : Thread σ)
    (h : handle = (H.GetModuleHandle t.world.os).1) :
    (dlclose H handle t).1 = 0 ∧
    native_unloads (dlclose H handle t).2.world = native_unloads t.world ∧
    (dlclose H handle t).2.dl_error = t.dl_error ∧
    (dlclose H handle t).2.dl_buffer = t.dl_buffer := by
  have h1 : handle = (t.world.call .GetModuleHandle H.GetModuleHandle).1 := h
  unfold dlclose
  simp only [if_pos h1]
  refine ⟨rfl, ?_, rfl, rfl⟩
  simp [native_unloads, World.call, List.countP_append, Call.isNativeUnload]

/-- Witness of C8: on the fake host the running image has the handle `1`. -/
theorem dlclose_own_image_witness :
    1 = (exampleHost.GetModuleHandle exampleThread.world.os).1 ∧
    (dlclose exampleHost 1 exampleThread).1 = 0 ∧
    native_unloads (dlclose exampleHost 1 exampleThread).2.world
      = native_unloads exampleThread.world ∧
    (dlclose exampleHost 1 exampleThread).2.dl_error = exampleThread.dl_error ∧
    (dlclose exampleHost 1 exampleThread).2.dl_buffer = exampleThread.dl_buffer :=
  ⟨by decide, dlclose_own_image exampleHost 1 exampleThread (by decide)⟩

/-! ## The search directories of a name with a directory -/

theorem get_exedir_len (H : Host σ) (w : World σ) :
    (get_exedir H w).exedirlen = 0 ∨
    (get_exedir H w).exedirlen = (get_exedir H w).exedirbuf.length := by
  unfold get_exedir
  split
  · left; rfl
  · dsimp only
    split
    · left; rfl
    · right; rfl

theorem exists_and_not_dir_test_noSearchdir (H : Host σ) (opt : Nat) (fn : List Char)
    (f : Frame σ) :
    trace_extends Call.noSearchdir f.world (exists_and_not_dir_test H opt fn f).2.world :=
  trace_extends_call _ _ _ _ (by rfl)

theorem dlopen_native_noSearchdir (H : Host σ) (gmheflags : Nat) (wpath : List Char)
    (w : World σ) :
    trace_extends Call.noSearchdir w (dlopen_native H gmheflags wpath w).2 := by
  have hl := trace_extends_call (α := Nat) Call.noSearchdir w (.LoadLibraryW wpath)
    (H.LoadLibraryW wpath) rfl
  unfold dlopen_native
  dsimp only
  split_ifs
  · exact trace_extends_trans hl
      (trace_extends_trans (trace_extends_call _ _ _ _ (by rfl)) (trace_extends_update _ _ _))
  · exact trace_extends_trans hl (trace_extends_call _ _ _ _ (by rfl))
  · exact trace_extends_trans hl (trace_extends_update _ _ _)
  · exact hl

theorem dlopen_load_noSearchdir (H : Host σ) (flags : Nat) (f : Frame σ) :
    trace_extends Call.noSearchdir f.world (dlopen_load H flags f).2 := by
  unfold dlopen_load
  dsimp only
  split_ifs
  · exact trace_extends_call _ _ _ _ (by rfl)
  · exact trace_extends_trans (trace_extends_call _ _ _ _ (by rfl))
      (dlopen_native_noSearchdir H _ _ _)
  · exact dlopen_native_noSearchdir H _ _ _

theorem dlopen_search_noSearchdir (H : Host σ) (name : List Char) (flags : Nat)
    (finder : pathfinder) (f : Frame σ) :
    trace_extends Call.noSearchdir f.world (dlopen_search H name flags finder f).2 := by
  have hfind : trace_extends Call.noSearchdir f.world
      (finder.find (exists_and_not_dir_test H (PC_SYM_FOLLOW ||| PC_POSIX))
        { f with world := f.world.log (.pathfinder_find .exists_and_not_dir) }).2.world :=
    trace_extends_trans
      (trace_extends_log Call.noSearchdir f.world (.pathfinder_find .exists_and_not_dir) rfl)
      (find_in_dirs_extends Call.noSearchdir _
        (fun fn g => exists_and_not_dir_test_noSearchdir H _ fn g) _ _ _)
  unfold dlopen_search
  dsimp only
  split_ifs
  · exact trace_extends_trans hfind (dlopen_load_noSearchdir H flags _)
  · exact trace_extends_trans hfind (trace_extends_call _ _ _ _ (by rfl))
  · exact trace_extends_trans hfind
      (trace_extends_trans (trace_extends_call _ _ _ _ (by rfl))
        (dlopen_load_noSearchdir H flags _))

theorem searchdirs_of_add (w : World σ) (d : List Char) :
    searchdirs_of (w.log (.add_searchdir d)) = searchdirs_of w ++ [d] := by
  simp [searchdirs_of, World.log, List.filterMap_append, Call.searchdir]

theorem dlopen_add_dirs_searchdirs (H : Host σ) (finder : pathfinder) (name : List Char)
    (dirlen : Nat) (f : Frame σ) :
    searchdirs_of (dlopen_add_dirs H finder name dirlen f).2.world =
      searchdirs_of f.world ++
        (if (dirlen ≥ 4 ∧ strncmp_eq (name.drop (dirlen - 4)) ['/', 'l', 'i', 'b'] 4 = true) ∧
            ((get_exedir H f.world).exedirlen = dirlen ∧
              strncmp_eq (get_exedir H f.world).exedirbuf name (dirlen - 4) = true ∧
              strcmp_eq ((get_exedir H f.world).exedirbuf.drop (dirlen - 4))
                ['/', 'b', 'i', 'n'] = true)
         then [(get_exedir H f.world).exedirbuf.take (get_exedir H f.world).exedirlen,
               name.take dirlen]
         else [name.take dirlen]) := by
  have he := searchdirs_of_noSearchdir (get_exedir_quiet H f.world).2
  unfold dlopen_add_dirs pathfinder.add_searchdir
  dsimp only
  by_cases h1 : dirlen ≥ 4 ∧ strncmp_eq (name.drop (dirlen - 4)) ['/', 'l', 'i', 'b'] 4 = true
  · by_cases h2 : (get_exedir H f.world).exedirlen = dirlen ∧
        strncmp_eq (get_exedir H f.world).exedirbuf name (dirlen - 4) = true ∧
        strcmp_eq ((get_exedir H f.world).exedirbuf.drop (dirlen - 4)) ['/', 'b', 'i', 'n'] = true
    · rw [if_pos h1, if_pos h2, if_pos ⟨h1, h2⟩]
      simp only [searchdirs_of_add, he, List.append_assoc, List.singleton_append]
    · rw [if_pos h1, if_neg h2, if_neg (fun h => h2 h.2)]
      simp only [searchdirs_of_add, he]
  · rw [if_neg h1, if_neg (fun h => h1 h.1)]
    simp only [searchdirs_of_add]

theorem dlopen_do_dir_searchdirs (H : Host σ) (name : List Char) (flags : Nat) (w : World σ)
    (hne : name ≠ []) (hd : (spot_basename name).have_dir = true) :
    searchdirs_of (dlopen_do H (some name) flags w).2 =
      searchdirs_of (dlopen_add_dirs H
        { basenames := (collect_basenames [] (name.drop (spot_basename name).basename_off)
            (spot_basename name).baselen).1, searchdirs := [] }
        name ((spot_basename name).basename_off - 1)
        { world := w, real_filename := path_conv.init, wpath := [], ret := 0 }).2.world := by
  have h1 : ¬ ((some name : Option (List Char)) = none ∨ some name = some []) := by
    simp [hne]
  unfold dlopen_do
  rw [if_neg h1]
  dsimp only [Option.getD_some]
  simp only [hd, Bool.not_true, Bool.false_eq_true, if_false, dlopen_find, if_true]
  have hp := trace_extends_mono isProbe_noSearchdir
    (find_loaded_fullname_probe H
      (dlopen_add_dirs H
        { basenames := (collect_basenames [] (name.drop (spot_basename name).basename_off)
            (spot_basename name).baselen).1, searchdirs := [] }
        name ((spot_basename name).basename_off - 1)
        { world := w, real_filename := path_conv.init, wpath := [], ret := 0 }).1
      (collect_basenames [] (name.drop (spot_basename name).basename_off)
            (spot_basename name).baselen).2 (gmheflags_of flags)
      (dlopen_add_dirs H
        { basenames := (collect_basenames [] (name.drop (spot_basename name).basename_off)
            (spot_basename name).baselen).1, searchdirs := [] }
        name ((spot_basename name).basename_off - 1)
        { world := w, real_filename := path_conv.init, wpath := [], ret := 0 }).2)
  split
  · exact searchdirs_of_noSearchdir hp
  · exact searchdirs_of_noSearchdir
      (trace_extends_trans hp (dlopen_search_noSearchdir H name flags _ _))

theorem take_append_len (X Y : List Char) (k : Nat) (h : X.length = k) :
    (X ++ Y).take k = X := by
  subst h
  simp

theorem drop_append_len (X Y : List Char) (k : Nat) (h : X.length = k) :
    (X ++ Y).drop k = Y := by
  subst h
  simp

theorem lib_bin_condition (H : Host σ) (w : World σ) (D b : List Char) :
    ((D.length ≥ 4 ∧
        strncmp_eq ((D ++ '/' :: b).drop (D.length - 4)) ['/', 'l', 'i', 'b'] 4 = true) ∧
      ((get_exedir H w).exedirlen = D.length ∧
        strncmp_eq (get_exedir H w).exedirbuf (D ++ '/' :: b) (D.length - 4) = true ∧
        strcmp_eq ((get_exedir H w).exedirbuf.drop (D.length - 4)) ['/', 'b', 'i', 'n'] = true))
    ↔ (D.drop (D.length - 4) = ['/', 'l', 'i', 'b'] ∧
        exedir_of H w = some (D.take (D.length - 4) ++ ['/', 'b', 'i', 'n'])) := by
  have hlen := get_exedir_len H w
  have hX : (D.take (D.length - 4)).length = D.length - 4 := by simp
  simp only [strncmp_eq, strcmp_eq, beq_iff_eq, exedir_of]
  constructor
  · rintro ⟨⟨h4, hlib⟩, hl, hpre, hbin⟩
    have e1 : (D ++ '/' :: b).drop (D.length - 4) = D.drop (D.length - 4) ++ '/' :: b :=
      List.drop_append_of_le_length (by omega)
    have e2 : (D.drop (D.length - 4)).length = 4 := by simp; omega
    rw [e1, List.take_append_of_le_length (by omega), List.take_of_length_le (by omega)] at hlib
    have e3 : (D ++ '/' :: b).take (D.length - 4) = D.take (D.length - 4) :=
      List.take_append_of_le_length (by omega)
    rw [e3] at hpre
    have hbuf : (get_exedir H w).exedirbuf = D.take (D.length - 4) ++ ['/', 'b', 'i', 'n'] := by
      rw [← List.take_append_drop (D.length - 4) (get_exedir H w).exedirbuf, hpre, hbin]
    have hne : (get_exedir H w).exedirlen ≠ 0 := by omega
    have hfull : (get_exedir H w).exedirlen = (get_exedir H w).exedirbuf.length := by
      rcases hlen with h | h
      · exact absurd h hne
      · exact h
    refine ⟨hlib, ?_⟩
    rw [if_neg hne, hfull, List.take_length, hbuf]
  · rintro ⟨hlib, hex⟩
    have h4 : D.length ≥ 4 := by
      have := congrArg List.length hlib
      simp at this
      omega
    by_cases hz : (get_exedir H w).exedirlen = 0
    · rw [if_pos hz] at hex
      exact absurd hex (by simp)
    · rw [if_neg hz] at hex
      have hfull : (get_exedir H w).exedirlen = (get_exedir H w).exedirbuf.length := by
        rcases hlen with h | h
        · exact absurd h hz
        · exact h
      rw [hfull, List.take_length] at hex
      have hbuf : (get_exedir H w).exedirbuf = D.take (D.length - 4) ++ ['/', 'b', 'i', 'n'] :=
        Option.some.inj hex
      have e1 : (D ++ '/' :: b).drop (D.length - 4) = D.drop (D.length - 4) ++ '/' :: b :=
        List.drop_append_of_le_length (by omega)
      have e3 : (D ++ '/' :: b).take (D.length - 4) = D.take (D.length - 4) :=
        List.take_append_of_le_length (by omega)
      refine ⟨⟨h4, ?_⟩, ?_, ?_, ?_⟩
      · rw [e1, hlib]; rfl
      · rw [hfull, hbuf]; simp; omega
      · rw [e3, hbuf, take_append_len _ _ _ hX]
      · rw [hbuf, drop_append_len _ _ _ hX]

/-- C5: for every name `D ++ "/" ++ b` with `b` free of `/`, the search directories `dlopen`
registers are the directory `E` of the executable followed by `D` exactly when `D` ends in
`"/lib"` and `get_exedir` yields `E` equal to `D` with that `"/lib"` replaced by `"/bin"`;
in every other case (`get_exedir` returning zero included) they are `D` alone. -/
theorem dlopen_searchdirs_with_dir (H : Host σ) (D b : List Char) (flags : Nat)
    (t : Thread σ) (hb : '/' ∉ b) :
    searchdirs_of (dlopen H (some (D ++ '/' :: b)) flags t).2.world =
      searchdirs_of t.world ++
        (if D.drop (D.length - 4) = ['/', 'l', 'i', 'b'] ∧
            exedir_of H t.world = some (D.take (D.length - 4) ++ ['/', 'b', 'i', 'n'])
         then [D.take (D.length - 4) ++ ['/', 'b', 'i', 'n'], D]
         else [D]) := by
  have hs := spot_basename_dir D b hb
  have hne : D ++ '/' :: b ≠ [] := by simp
  have hd : (spot_basename (D ++ '/' :: b)).have_dir = true := by rw [hs]
  rw [dlopen_world, dlopen_do_dir_searchdirs H _ flags t.world hne hd,
    dlopen_add_dirs_searchdirs]
  have hoff : (spot_basename (D ++ '/' :: b)).basename_off - 1 = D.length := by rw [hs]; simp
  rw [hoff]
  have htake : (D ++ '/' :: b).take D.length = D := take_append_len _ _ _ rfl
  have hc := lib_bin_condition H t.world D b
  by_cases hspec : D.drop (D.length - 4) = ['/', 'l', 'i', 'b'] ∧
      exedir_of H t.world = some (D.take (D.length - 4) ++ ['/', 'b', 'i', 'n'])
  · rw [if_pos (hc.2 hspec), if_pos hspec, htake]
    have hex := hspec.2
    have hz : (get_exedir H t.world).exedirlen ≠ 0 := by
      intro hz
      simp [exedir_of, hz] at hex
    simp only [exedir_of, if_neg hz] at hex
    rw [Option.some.inj hex]
  · rw [if_neg (fun h => hspec (hc.1 h)), if_neg hspec, htake]

/-- Witness of C5: on the fake host, whose program lies in `/usr/bin`, the name
`/usr/lib/libz.so` registers `/usr/bin` before `/usr/lib`, and `/opt/lib/libz.so`
registers `/opt/lib` alone. -/
theorem dlopen_searchdirs_with_dir_witness :
    ('/' ∉ "libz.so".toList ∧
      searchdirs_of (dlopen exampleHost (some ("/usr/lib".toList ++ '/' :: "libz.so".toList)) 0
        exampleThread).2.world = ["/usr/bin".toList, "/usr/lib".toList]) ∧
    searchdirs_of (dlopen exampleHost (some ("/opt/lib".toList ++ '/' :: "libz.so".toList)) 0
        exampleThread).2.world = ["/opt/lib".toList] := by
  have h1 := dlopen_searchdirs_with_dir exampleHost "/usr/lib".toList "libz.so".toList 0
    exampleThread (by decide)
  have h2 := dlopen_searchdirs_with_dir exampleHost "/opt/lib".toList "libz.so".toList 0
    exampleThread (by decide)
  refine ⟨⟨by decide, ?_⟩, ?_⟩
  · rw [h1]; decide
  · rw [h2]; decide

/-! ## The last candidate -/

theorem ends_so_iff (b : List Char) :
    (∃ stem, b = stem ++ dot_so) ↔ b.drop (b.length - 3) = dot_so := by
  constructor
  · rintro ⟨stem, rfl⟩
    simp [dot_so]
  · intro h
    refine ⟨b.take (b.length - 3), ?_⟩
    rw [← h, List.take_append_drop]

/-- C11: for every basename `b` (a C string), the candidates of `collect_basenames` are
between one and three, and the last of them is `b` with the trailing `".so"` replaced by
`".dll"` when `b` ends in `".so"`, and `b` itself otherwise: the last candidate never
carries the `"cyg"` prefix substitution. -/
theorem collect_basenames_last (b : List Char) (hb : NUL ∉ b) :
    1 ≤ (collect_basenames [] b b.length).1.length ∧
    (collect_basenames [] b b.length).1.length ≤ 3 ∧
    ((collect_basenames [] b b.length).1.map member.string).getLast? =
      some (if b.drop (b.length - 3) = dot_so then b.take (b.length - 3) ++ dot_dll else b) := by
  by_cases hso : b.drop (b.length - 3) = dot_so
  · obtain ⟨stem, rfl⟩ := (ends_so_iff b).2 hso
    have hn : NUL ∉ stem := fun e => hb (List.mem_append_left _ e)
    have h := (collect_basenames_so stem hn).1
    have hlen := congrArg List.length h
    rw [List.length_map] at hlen
    have ht : (stem ++ dot_so).take ((stem ++ dot_so).length - 3) = stem := by
      simp [dot_so]
    rw [if_pos hso, ht, h, hlen]
    split <;> simp
  · have hns : has_so_suffix b b.length = false := by
      have h1 : ¬ last_dot_text b = some dot_so :=
        fun h => hso ((ends_so_iff b).1 ((last_dot_text_so_iff b).1 h))
      have := mt (has_so_suffix_iff b).1 h1
      simpa using this
    have h := (collect_basenames_not_so b hb hns).1
    have hlen := congrArg List.length h
    rw [List.length_map] at hlen
    rw [if_neg hso, h, hlen]
    split <;> simp

/-- Witness of C11: the last candidate of `"libfoo.so"` is `"libfoo.dll"`, that of
`"libfoo"` is `"libfoo"`, that of the empty basename is the empty string. -/
theorem collect_basenames_last_witness :
    (NUL ∉ "libfoo.so".toList ∧
      ((collect_basenames [] "libfoo.so".toList 9).1.map member.string).getLast? =
        some "libfoo.dll".toList) ∧
    (NUL ∉ "libfoo".toList ∧
      ((collect_basenames [] "libfoo".toList 6).1.map member.string).getLast? =
        some "libfoo".toList) ∧
    (NUL ∉ ([] : List Char) ∧
      ((collect_basenames [] [] 0).1.map member.string).getLast? = some []) :=
  ⟨⟨by decide, (collect_basenames_last "libfoo.so".toList (by decide)).2.2⟩,
   ⟨by decide, (collect_basenames_last "libfoo".toList (by decide)).2.2⟩,
   ⟨by decide, (collect_basenames_last [] (by decide)).2.2⟩⟩

/-! ## The empty name and the empty basename -/

theorem split_last_char (c : Char) (s : List Char) :
    c ∉ s ∨ ∃ p q, s = p ++ c :: q ∧ c ∉ q := by
  induction s with
  | nil => left; simp
  | cons x xs ih =>
    rcases ih with h | ⟨p, q, hpq, hq⟩
    · by_cases hx : x = c
      · right; exact ⟨[], xs, by simp [hx], h⟩
      · left
        simp only [List.mem_cons, not_or]
        exact ⟨fun e => hx e.symm, h⟩
    · right; exact ⟨x :: p, q, by simp [hpq], hq⟩

theorem dlopen_do_collect_call (H : Host σ) (nm : List Char) (flags : Nat) (w : World σ)
    (hne : nm ≠ []) :
    ∃ b n, dlopen_collect_call (some nm) = some (b, n) ∧
      dlopen_do H (some nm) flags w =
        if !(spot_basename nm).have_dir then
          if (find_loaded_basename H (collect_basenames [] b n).2 (gmheflags_of flags)
                (collect_basenames [] b n).1 w).1 ≠ 0 ∨ flag_set flags RTLD_NOLOAD = true then
            ((find_loaded_basename H (collect_basenames [] b n).2 (gmheflags_of flags)
                (collect_basenames [] b n).1 w).1,
             (find_loaded_basename H (collect_basenames [] b n).2 (gmheflags_of flags)
                (collect_basenames [] b n).1 w).2.2)
          else dlopen_find H nm flags (spot_basename nm)
            (find_loaded_basename H (collect_basenames [] b n).2 (gmheflags_of flags)
                (collect_basenames [] b n).1 w).2.1 (collect_basenames [] b n).2
            (find_loaded_basename H (collect_basenames [] b n).2 (gmheflags_of flags)
                (collect_basenames [] b n).1 w).2.2
        else dlopen_find H nm flags (spot_basename nm) (collect_basenames [] b n).1
          (collect_basenames [] b n).2 w := by
  have h1 : ¬ ((some nm : Option (List Char)) = none ∨ some nm = some []) := by
    simp [hne]
  refine ⟨nm.drop (spot_basename nm).basename_off, (spot_basename nm).baselen, ?_, ?_⟩
  · simp [dlopen_collect_call, hne]
  · unfold dlopen_do
    rw [if_neg h1]
    rfl

/-- Counterexample to C12: the name `dir/` is not empty, yet `dlopen` calls
`collect_basenames` with the empty basename and `baselen = 0`; on the fake host the one
candidate is the empty string and the probe checks the file name `dir/`. -/
theorem dlopen_collect_empty_basename :
    "dir/".toList ≠ [] ∧
    dlopen_collect_call (some "dir/".toList) = some ([], 0) ∧
    (collect_basenames [] [] 0).1.map member.string = [[]] ∧
    (dlopen exampleHost (some "dir/".toList) RTLD_NOLOAD exampleThread).2.world.trace =
      [Call.add_searchdir "dir".toList, Call.pathfinder_find criterion.loaded,
       Call.path_conv_check "dir/".toList PC_POSIX] := by
  decide

theorem basename_length_zero_iff (nm : List Char) (hne : nm ≠ []) :
    (spot_basename nm).baselen = (nm.drop (spot_basename nm).basename_off).length ∧
    '/' ∉ nm.drop (spot_basename nm).basename_off ∧
    ((nm.drop (spot_basename nm).basename_off).length = 0 ↔ nm.getLast? = some '/') := by
  rcases split_last_char '/' nm with h | ⟨D, b, rfl, hb⟩
  · have hs := spot_basename_no_dir nm h
    rw [hs]
    refine ⟨by simp, by simpa using h, ?_⟩
    simp only [List.drop_zero]
    constructor
    · intro h0
      exact absurd (List.length_eq_zero.1 h0) hne
    · intro hl
      exact absurd (List.mem_of_getLast?_eq_some hl) h
  · have hs := spot_basename_dir D b hb
    have hd : (D ++ '/' :: b).drop (D.length + 1) = b := by
      rw [show D ++ '/' :: b = (D ++ ['/']) ++ b by simp]
      exact drop_append_len _ _ _ (by simp)
    rw [hs]
    simp only [hd]
    refine ⟨trivial, hb, ?_⟩
    constructor
    · intro h0
      have hb0 : b = [] := List.length_eq_zero.1 h0
      subst hb0
      simp
    · intro hl
      by_contra hne0
      have hbne : b ≠ [] := fun e => hne0 (by simp [e])
      have : (D ++ '/' :: b).getLast? = b.getLast? := by
        rw [show D ++ '/' :: b = (D ++ ['/']) ++ b by simp]
        exact List.getLast?_append_of_ne_nil _ hbne
      rw [this] at hl
      exact hb (List.mem_of_getLast?_eq_some hl)

/-- C12, amended: for the `NULL` and the empty name `dlopen` does not call
`collect_basenames` (its only call is `GetModuleHandle (NULL)`); for every other name
`dlopen` goes on with exactly the candidates `collect_basenames` yields for the text
behind the last `/` of the name and the length of that text, a text without `/` whose
length is zero exactly when the name ends in `/`; then the one candidate is the empty
string. -/
theorem dlopen_collect_call_baselen (H : Host σ) (name : Option (List Char)) (flags : Nat)
    (w : World σ) :
    (name = none ∨ name = some [] →
      dlopen_collect_call name = none ∧
      (dlopen_do H name flags w).2.trace = w.trace ++ [Call.GetModuleHandle]) ∧
    ∀ nm, name = some nm → nm ≠ [] →
      dlopen_collect_call name =
        some (nm.drop (spot_basename nm).basename_off,
          (nm.drop (spot_basename nm).basename_off).length) ∧
      dlopen_do H name flags w =
        dlopen_named H nm flags
          (collect_basenames [] (nm.drop (spot_basename nm).basename_off)
            (nm.drop (spot_basename nm).basename_off).length) w ∧
      ('/' ∉ nm.drop (spot_basename nm).basename_off) ∧
      ((nm.drop (spot_basename nm).basename_off).length = 0 ↔ nm.getLast? = some '/') ∧
      (nm.getLast? = some '/' →
        (collect_basenames [] (nm.drop (spot_basename nm).basename_off)
          (nm.drop (spot_basename nm).basename_off).length).1.map member.string = [[]]) := by
  constructor
  · intro hn
    refine ⟨by simp [dlopen_collect_call, hn], ?_⟩
    unfold dlopen_do
    rw [if_pos hn]
    dsimp only
    split <;> rfl
  · rintro nm rfl hne
    obtain ⟨hlen, hslash, hzero⟩ := basename_length_zero_iff nm hne
    have h1 : ¬ ((some nm : Option (List Char)) = none ∨ some nm = some []) := by
      simp [hne]
    refine ⟨?_, ?_, hslash, hzero, ?_⟩
    · rw [← hlen]
      simp [dlopen_collect_call, hne]
    · rw [← hlen]
      unfold dlopen_do dlopen_named
      rw [if_neg h1]
      rfl
    · intro hl
      have h0 := List.length_eq_zero.1 (hzero.2 hl)
      rw [h0]
      decide

/-- Witness of C12, amended: on the fake host `dlopen` goes on with the candidates of
`("libz.so", 7)` for `/usr/lib/libz.so`, and with those of `("", 0)` for `dir/`. -/
theorem dlopen_collect_call_baselen_witness :
    ("/usr/lib/libz.so".toList ≠ [] ∧
      dlopen_collect_call (some "/usr/lib/libz.so".toList) = some ("libz.so".toList, 7) ∧
      dlopen_do exampleHost (some "/usr/lib/libz.so".toList) 0 exampleThread.world =
        dlopen_named exampleHost "/usr/lib/libz.so".toList 0
          (collect_basenames [] "libz.so".toList 7) exampleThread.world) ∧
    ("dir/".toList ≠ [] ∧ "dir/".toList.getLast? = some '/' ∧
      dlopen_collect_call (some "dir/".toList) = some ([], 0) ∧
      dlopen_do exampleHost (some "dir/".toList) 0 exampleThread.world =
        dlopen_named exampleHost "dir/".toList 0 (collect_basenames [] [] 0)
          exampleThread.world) := by
  have h1 := (dlopen_collect_call_baselen exampleHost (some "/usr/lib/libz.so".toList) 0
    exampleThread.world).2 "/usr/lib/libz.so".toList rfl (by decide)
  have h2 := (dlopen_collect_call_baselen exampleHost (some "dir/".toList) 0
    exampleThread.world).2 "dir/".toList rfl (by decide)
  have e1 : "/usr/lib/libz.so".toList.drop
      (spot_basename "/usr/lib/libz.so".toList).basename_off = "libz.so".toList := by decide
  have e2 : "dir/".toList.drop (spot_basename "dir/".toList).basename_off = [] := by decide
  rw [e1] at h1
  rw [e2] at h2
  exact ⟨⟨by decide, h1.1, h1.2.1⟩, ⟨by decide, by decide, h2.1, h2.2.1⟩⟩

/-- C13: for the `NULL` and the empty name and any flags, `dlopen` returns the handle of the
running image as `GetModuleHandle (NULL)` yields it; that query is the only call it makes
(no candidates, no probe, no file system search, no native load), and it fails, with the
error flag raised, exactly when the query yields `NULL`. -/
theorem dlopen_empty_name (H : Host σ) (name : Option (List Char)) (flags : Nat)
    (t : Thread σ) (hn : name = none ∨ name = some []) :
    (dlopen H name flags t).1 = (H.GetModuleHandle t.world.os).1 ∧
    (dlopen H name flags t).2.world.trace = t.world.trace ++ [Call.GetModuleHandle] ∧
    dlopen_collect_call name = none ∧
    ((dlopen H name flags t).1 = 0 → (dlopen H name flags t).2.dl_error = 1) ∧
    ((dlopen H name flags t).1 ≠ 0 →
      (dlopen H name flags t).2.dl_error = t.dl_error ∧
      (dlopen H name flags t).2.dl_buffer = t.dl_buffer) := by
  have hd : dlopen_do H name flags t.world =
      if (t.world.call .GetModuleHandle H.GetModuleHandle).1 = 0 then
        ((t.world.call .GetModuleHandle H.GetModuleHandle).1,
          (t.world.call .GetModuleHandle H.GetModuleHandle).2.update H.seterrno)
      else t.world.call .GetModuleHandle H.GetModuleHandle := by
    unfold dlopen_do
    rw [if_pos hn]
  have hs := dlopen_error_slot H name flags t
  refine ⟨?_, ?_, ?_, fun h => (hs.1 h).1, hs.2⟩
  · unfold dlopen
    rw [hd]
    dsimp only
    split_ifs <;> rfl
  · rw [dlopen_world, hd]
    split <;> rfl
  · simp [dlopen_collect_call, hn]

/-- Witness of C13: on the fake host `dlopen (NULL, 0)` and `dlopen ("", RTLD_NOLOAD)` return
the handle `1` of the running image. -/
theorem dlopen_empty_name_witness :
    (dlopen exampleHost none 0 exampleThread).1 = (exampleHost.GetModuleHandle
        exampleThread.world.os).1 ∧
    (dlopen exampleHost (some []) RTLD_NOLOAD exampleThread).2.world.trace
      = exampleThread.world.trace ++ [Call.GetModuleHandle] :=
  ⟨(dlopen_empty_name exampleHost none 0 exampleThread (Or.inl rfl)).1,
   (dlopen_empty_name exampleHost (some []) RTLD_NOLOAD exampleThread (Or.inr rfl)).2.1⟩

/-! ## The calls before the native load -/

theorem find_loaded_basename_admits {P : Call → Bool} {gm : Nat} (hP : admits P gm)
    (H : Host σ) (have_suffix : Bool) (cands : List member) (w : World σ) :
    trace_extends P w (find_loaded_basename H have_suffix gm cands w).2.2 := by
  induction cands generalizing w with
  | nil => exact trace_extends_refl _ _
  | cons bn rest ih =>
    cases have_suffix <;>
    · simp only [find_loaded_basename, Bool.not_false, Bool.not_true, if_true,
        Bool.false_eq_true, if_false]
      split
      · exact trace_extends_call _ _ _ _ (hP.queryA _)
      · exact trace_extends_trans (trace_extends_call _ _ _ _ (hP.queryA _)) (ih _)

theorem loaded_test_loop_admits {P : Call → Bool} {gm : Nat} (hP : admits P gm)
    (H : Host σ) (have_suffix : Bool) (filename : List Char) (n symflag : Nat) (f : Frame σ) :
    trace_extends P f.world
      (loaded_test_loop H have_suffix gm filename n symflag f).2.world := by
  induction n generalizing symflag f with
  | zero => exact trace_extends_refl _ _
  | succ n ih =>
    simp only [loaded_test_loop]
    split
    · exact trace_extends_refl _ _
    · split
      · exact trace_extends_call _ _ _ _ (hP.check _ _)
      · split
        · exact trace_extends_trans (trace_extends_call _ _ _ _ (hP.check _ _))
            (trace_extends_call _ _ _ _ (hP.queryW _))
        · exact trace_extends_trans (trace_extends_trans
            (trace_extends_call _ _ _ _ (hP.check _ _))
            (trace_extends_call _ _ _ _ (hP.queryW _))) (ih _ _)

theorem find_loaded_fullname_admits {P : Call → Bool} {gm : Nat} (hP : admits P gm)
    (H : Host σ) (finder : pathfinder) (have_suffix : Bool) (f : Frame σ) :
    trace_extends P f.world (find_loaded_fullname H finder have_suffix gm f).world := by
  unfold find_loaded_fullname pathfinder.find
  exact trace_extends_trans
    (trace_extends_log P f.world (.pathfinder_find .loaded) (hP.find _))
    (find_in_dirs_extends P _
      (fun fn g => loaded_test_loop_admits hP H have_suffix fn 2 PC_POSIX g) _ _ _)

theorem get_exedir_admits {P : Call → Bool} {gm : Nat} (hP : admits P gm)
    (H : Host σ) (w : World σ) : trace_extends P w (get_exedir H w).world := by
  unfold get_exedir
  split
  · exact trace_extends_refl _ _
  · dsimp only
    split <;> exact trace_extends_call _ _ _ _ (hP.posix _)

theorem dlopen_add_dirs_admits {P : Call → Bool} {gm : Nat} (hP : admits P gm)
    (H : Host σ) (finder : pathfinder) (name : List Char) (dirlen : Nat) (f : Frame σ) :
    trace_extends P f.world (dlopen_add_dirs H finder name dirlen f).2.world := by
  unfold dlopen_add_dirs pathfinder.add_searchdir
  dsimp only
  split_ifs
  · exact trace_extends_trans (trace_extends_trans (get_exedir_admits hP H f.world)
      (trace_extends_log _ _ _ (hP.searchdir _))) (trace_extends_log _ _ _ (hP.searchdir _))
  · exact trace_extends_trans (get_exedir_admits hP H f.world)
      (trace_extends_log _ _ _ (hP.searchdir _))
  · exact trace_extends_log _ _ _ (hP.searchdir _)

theorem reaches_native_of_extends {P : Call → Bool} {gm : Nat} (H : Host σ)
    {u v : World σ} {r : Nat × World σ} (h1 : trace_extends P u v)
    (h2 : trace_extends P v r.2 ∨ reaches_native H gm P v r) :
    trace_extends P u r.2 ∨ reaches_native H gm P u r := by
  rcases h2 with h | ⟨p, w0, e, h⟩
  · exact Or.inl (trace_extends_trans h1 h)
  · exact Or.inr ⟨p, w0, e, trace_extends_trans h1 h⟩

theorem dlopen_load_cases {P : Call → Bool} (flags : Nat) (hP : admits P (gmheflags_of flags))
    (H : Host σ) (f : Frame σ) :
    trace_extends P f.world (dlopen_load H flags f).2 ∨
    reaches_native H (gmheflags_of flags) P f.world (dlopen_load H flags f) := by
  unfold dlopen_load
  dsimp only
  split_ifs
  · exact Or.inl (trace_extends_call _ _ _ _ (hP.queryW _))
  · exact Or.inr ⟨_, _, rfl, trace_extends_call _ _ _ _ (hP.queryW _)⟩
  · exact Or.inr ⟨_, _, rfl, trace_extends_refl _ _⟩

theorem dlopen_search_cases {P : Call → Bool} (flags : Nat)
    (hP : admits P (gmheflags_of flags)) (H : Host σ) (name : List Char)
    (finder : pathfinder) (f : Frame σ) :
    trace_extends P f.world (dlopen_search H name flags finder f).2 ∨
    reaches_native H (gmheflags_of flags) P f.world (dlopen_search H name flags finder f) := by
  have hfind : trace_extends P f.world
      (finder.find (exists_and_not_dir_test H (PC_SYM_FOLLOW ||| PC_POSIX))
        { f with world := f.world.log (.pathfinder_find .exists_and_not_dir) }).2.world :=
    trace_extends_trans
      (trace_extends_log P f.world (.pathfinder_find .exists_and_not_dir) (hP.find _))
      (find_in_dirs_extends P _
        (fun fn g => trace_extends_call P g.world _ _ (hP.check fn _)) _ _ _)
  unfold dlopen_search
  dsimp only
  split_ifs
  · exact reaches_native_of_extends H hfind (dlopen_load_cases flags hP H _)
  · exact Or.inl (trace_extends_trans hfind (trace_extends_call _ _ _ _ (hP.check _ _)))
  · exact reaches_native_of_extends H
      (trace_extends_trans hfind (trace_extends_call _ _ _ _ (hP.check _ _)))
      (dlopen_load_cases flags hP H _)

theorem dlopen_find_cases {P : Call → Bool} (flags : Nat)
    (hP : admits P (gmheflags_of flags)) (H : Host σ) (name : List Char) (sb : spotted)
    (basenames : List member) (have_suffix : Bool) (w : World σ) :
    trace_extends P w (dlopen_find H name flags sb basenames have_suffix w).2 ∨
    reaches_native H (gmheflags_of flags) P w
      (dlopen_find H name flags sb basenames have_suffix w) := by
  unfold dlopen_find pathfinder.add_envsearchpath pathfinder.add_searchdir
  dsimp only
  split_ifs
  · exact Or.inl (trace_extends_trans (dlopen_add_dirs_admits hP H _ _ _ _)
      (find_loaded_fullname_admits hP H _ _ _))
  · exact reaches_native_of_extends H
      (trace_extends_trans (dlopen_add_dirs_admits hP H _ _ _ _)
        (find_loaded_fullname_admits hP H _ _ _))
      (dlopen_search_cases flags hP H _ _ _)
  · exact reaches_native_of_extends H
      (trace_extends_trans (trace_extends_trans
        (trace_extends_call P w _ _ (hP.envpath _))
        (trace_extends_log P _ _ (hP.searchdir _))) (trace_extends_log P _ _ (hP.searchdir _)))
      (dlopen_search_cases flags hP H _ _ _)

theorem dlopen_do_cases {P : Call → Bool} (flags : Nat)
    (hP : admits P (gmheflags_of flags)) (H : Host σ) (name : Option (List Char))
    (w : World σ) :
    trace_extends P w (dlopen_do H name flags w).2 ∨
    reaches_native H (gmheflags_of flags) P w (dlopen_do H name flags w) := by
  unfold dlopen_do
  dsimp only
  split_ifs
  · exact Or.inl (trace_extends_trans (trace_extends_call _ _ _ _ hP.image)
      (trace_extends_update _ _ _))
  · exact Or.inl (trace_extends_call _ _ _ _ hP.image)
  · exact Or.inl (find_loaded_basename_admits hP H _ _ _)
  · exact reaches_native_of_extends H (find_loaded_basename_admits hP H _ _ _)
      (dlopen_find_cases flags hP H _ _ _ _ _)
  · exact dlopen_find_cases flags hP H _ _ _ _ _

/-! ## The native load -/

theorem beforeLoad_admits (gm : Nat) : admits (Call.beforeLoad gm) gm :=
  { image := rfl
    queryA := fun _ => by simp [Call.beforeLoad]
    queryW := fun _ => by simp [Call.beforeLoad]
    check := fun _ _ => rfl
    posix := fun _ => rfl
    searchdir := fun _ => rfl
    envpath := fun _ => rfl
    find := fun _ => rfl }

theorem beforeLoad_no_load (gm : Nat) (e : Call) (h : e.beforeLoad gm = true) :
    e.isNativeLoad = false := by
  cases e <;> simp_all [Call.beforeLoad, Call.isNativeLoad]

theorem beforeLoad_zero_no_pin (e : Call) (h : e.beforeLoad 0 = true) :
    e.carriesPin = false := by
  cases e <;> simp_all [Call.beforeLoad, Call.carriesPin, flag_set]

theorem native_loads_append (w v : World σ) (evs : List Call) (h : v.trace = w.trace ++ evs) :
    native_loads v = native_loads w + evs.countP Call.isNativeLoad := by
  simp [native_loads, h, List.countP_append]

theorem dlopen_ret (H : Host σ) (name : Option (List Char)) (flags : Nat) (t : Thread σ) :
    (dlopen H name flags t).1 = (dlopen_do H name flags t.world).1 := by
  unfold dlopen
  dsimp only
  split <;> rfl

theorem dlopen_native_trace (H : Host σ) (gm : Nat) (q : List Char) (w : World σ) :
    (dlopen_native H gm q w).2.trace =
      w.trace ++ (if (H.LoadLibraryW q w.os).1 ≠ 0 ∧ gm ≠ 0
        then [Call.LoadLibraryW q, Call.GetModuleHandleExW gm q]
        else [Call.LoadLibraryW q]) := by
  unfold dlopen_native
  dsimp only
  by_cases h : (H.LoadLibraryW q w.os).1 ≠ 0 ∧ gm ≠ 0
  · have h2 : (w.call (.LoadLibraryW q) (H.LoadLibraryW q)).1 ≠ 0 ∧ gm ≠ 0 := h
    rw [if_pos h2, if_pos h]
    split <;> simp [World.call, World.update]
  · have h2 : ¬ ((w.call (.LoadLibraryW q) (H.LoadLibraryW q)).1 ≠ 0 ∧ gm ≠ 0) := h
    rw [if_neg h2, if_neg h]
    split <;> simp [World.call, World.update]

theorem dlopen_native_ret (H : Host σ) (gm : Nat) (q : List Char) (w : World σ) :
    (dlopen_native H gm q w).1 =
      if (H.LoadLibraryW q w.os).1 ≠ 0 ∧ gm ≠ 0
        then (H.GetModuleHandleExW gm q (H.LoadLibraryW q w.os).2).1
        else (H.LoadLibraryW q w.os).1 := by
  unfold dlopen_native
  dsimp only
  by_cases h : (H.LoadLibraryW q w.os).1 ≠ 0 ∧ gm ≠ 0
  · have h2 : (w.call (.LoadLibraryW q) (H.LoadLibraryW q)).1 ≠ 0 ∧ gm ≠ 0 := h
    rw [if_pos h2, if_pos h]
    split <;> rfl
  · have h2 : ¬ ((w.call (.LoadLibraryW q) (H.LoadLibraryW q)).1 ≠ 0 ∧ gm ≠ 0) := h
    rw [if_neg h2, if_neg h]
    split <;> rfl

theorem strrchr_append_ne (p : List Char) (c x : Char) (h : x ≠ c) :
    strrchr (p ++ [x]) c = strrchr p c := by
  induction p with
  | nil => simp [strrchr, h]
  | cons y ys ih => simp [strrchr, ih]

theorem strrchr_lt (p : List Char) (c : Char) (i : Nat) (h : strrchr p c = some i) :
    i < p.length := by
  induction p generalizing i with
  | nil => simp [strrchr] at h
  | cons y ys ih =>
    simp only [strrchr] at h
    cases hs : strrchr ys c with
    | some j =>
      rw [hs] at h
      simp only [Option.some.injEq] at h
      have := ih j hs
      simp only [List.length_cons]
      omega
    | none =>
      rw [hs] at h
      simp only at h
      split at h
      · simp only [Option.some.injEq] at h
        simp only [List.length_cons]
        omega
      · exact absurd h (by simp)

theorem last_component_append_dot (p : List Char) :
    last_component (p ++ ['.']) = last_component p ++ ['.'] := by
  unfold last_component
  rw [strrchr_append_ne p BACKSLASH '.' (by decide)]
  cases hs : strrchr p BACKSLASH with
  | none => rfl
  | some i =>
    have := strrchr_lt p BACKSLASH i hs
    simp only
    exact List.drop_append_of_le_length (by omega)

theorem add_trailing_dot_dotted (p : List Char) :
    (last_component (add_trailing_dot p)).contains '.' = true := by
  unfold add_trailing_dot
  split
  · assumption
  · rw [last_component_append_dot]
    simp

/-- C14: every `dlopen` call that reaches the native load (the number of native loads
changes) loads one path `p`, in a world `w0` reached by calls `pre` that are no loads.
With `RTLD_NODELETE`, a successful load is followed by `GetModuleHandleExW` with the PIN
flag on the same `p`, the result of that query is what `dlopen` returns, and a `NULL`
result makes `dlopen` return `NULL` with the error flag raised.  Without `RTLD_NODELETE`,
no loader query of the call carries the PIN flag, nothing follows the load, and the handle
of the load is returned as it is. -/
theorem dlopen_pin (H : Host σ) (name : Option (List Char)) (flags : Nat) (t : Thread σ)
    (hload : native_loads (dlopen H name flags t).2.world ≠ native_loads t.world) :
    ∃ (p : List Char) (w0 : World σ) (pre : List Call),
      w0.trace = t.world.trace ++ pre ∧ (∀ e ∈ pre, e.isNativeLoad = false) ∧
      (flag_set flags RTLD_NODELETE = true →
        (dlopen H name flags t).2.world.trace =
          w0.trace ++ (if (H.LoadLibraryW p w0.os).1 ≠ 0
            then [Call.LoadLibraryW p,
                  Call.GetModuleHandleExW GET_MODULE_HANDLE_EX_FLAG_PIN p]
            else [Call.LoadLibraryW p]) ∧
        ((H.LoadLibraryW p w0.os).1 ≠ 0 →
          (dlopen H name flags t).1 =
            (H.GetModuleHandleExW GET_MODULE_HANDLE_EX_FLAG_PIN p
              (H.LoadLibraryW p w0.os).2).1 ∧
          ((H.GetModuleHandleExW GET_MODULE_HANDLE_EX_FLAG_PIN p
              (H.LoadLibraryW p w0.os).2).1 = 0 →
            (dlopen H name flags t).1 = 0 ∧ (dlopen H name flags t).2.dl_error = 1))) ∧
      (flag_set flags RTLD_NODELETE = false →
        (dlopen H name flags t).2.world.trace = w0.trace ++ [Call.LoadLibraryW p] ∧
        (dlopen H name flags t).1 = (H.LoadLibraryW p w0.os).1 ∧
        (∀ e ∈ pre ++ [Call.LoadLibraryW p], e.carriesPin = false)) := by
  rcases dlopen_do_cases flags (beforeLoad_admits (gmheflags_of flags)) H name t.world with
    h | ⟨p, w0, e, pre, hw0, hall⟩
  · exfalso
    obtain ⟨evs, he, hev⟩ := h
    apply hload
    rw [dlopen_world, native_loads_append _ _ evs he]
    have : evs.countP Call.isNativeLoad = 0 := by
      rw [List.countP_eq_zero]
      intro x hx
      simp [beforeLoad_no_load _ x (hev x hx)]
    omega
  · refine ⟨add_trailing_dot p, w0, pre, hw0,
      fun x hx => beforeLoad_no_load _ x (hall x hx), ?_, ?_⟩
    · intro hf
      have hgm : gmheflags_of flags = GET_MODULE_HANDLE_EX_FLAG_PIN := by
        simp [gmheflags_of, hf]
      have hne : GET_MODULE_HANDLE_EX_FLAG_PIN ≠ 0 := by decide
      rw [hgm] at e
      have htr := dlopen_native_trace H GET_MODULE_HANDLE_EX_FLAG_PIN (add_trailing_dot p) w0
      have hret := dlopen_native_ret H GET_MODULE_HANDLE_EX_FLAG_PIN (add_trailing_dot p) w0
      have hr : (dlopen H name flags t).1 =
          (dlopen_native H GET_MODULE_HANDLE_EX_FLAG_PIN (add_trailing_dot p) w0).1 := by
        rw [dlopen_ret, e]
      have hw : (dlopen H name flags t).2.world =
          (dlopen_native H GET_MODULE_HANDLE_EX_FLAG_PIN (add_trailing_dot p) w0).2 := by
        rw [dlopen_world, e]
      refine ⟨?_, ?_⟩
      · rw [hw, htr]
        by_cases hl : (H.LoadLibraryW (add_trailing_dot p) w0.os).1 ≠ 0
        · rw [if_pos ⟨hl, hne⟩, if_pos hl]
        · rw [if_neg (fun h => hl h.1), if_neg hl]
      intro hl
      have hq : (dlopen H name flags t).1 =
          (H.GetModuleHandleExW GET_MODULE_HANDLE_EX_FLAG_PIN (add_trailing_dot p)
            (H.LoadLibraryW (add_trailing_dot p) w0.os).2).1 := by
        rw [hr, hret, if_pos ⟨hl, hne⟩]
      refine ⟨hq, fun hz => ?_⟩
      have h0 : (dlopen H name flags t).1 = 0 := by rw [hq, hz]
      exact ⟨h0, ((dlopen_error_slot H name flags t).1 h0).1⟩
    · intro hf
      have hgm : gmheflags_of flags = 0 := by
        simp [gmheflags_of, hf]
      rw [hgm] at e hall
      have htr := dlopen_native_trace H 0 (add_trailing_dot p) w0
      have hret := dlopen_native_ret H 0 (add_trailing_dot p) w0
      simp only [ne_eq, not_true_eq_false, and_false, if_false] at htr hret
      rw [dlopen_world, dlopen_ret, e]
      refine ⟨htr, hret, ?_⟩
      intro x hx
      rcases List.mem_append.1 hx with h | h
      · exact beforeLoad_zero_no_pin x (hall x h)
      · rw [List.mem_singleton.1 h]
        rfl

/-- Witness of C14: on the fake host `dlopen ("foo", RTLD_NODELETE)` and `dlopen ("foo", 0)`
reach the native load. -/
theorem dlopen_pin_witness :
    (native_loads (dlopen exampleHost (some "foo".toList) RTLD_NODELETE exampleThread).2.world
        ≠ native_loads exampleThread.world ∧
      (dlopen exampleHost (some "foo".toList) RTLD_NODELETE exampleThread).2.world.trace.getLast?
        = some (Call.GetModuleHandleExW GET_MODULE_HANDLE_EX_FLAG_PIN (fake_native "foo."))) ∧
    (native_loads (dlopen exampleHost (some "foo".toList) 0 exampleThread).2.world
        ≠ native_loads exampleThread.world ∧
      ∃ (p : List Char) (w0 : World FakeOS) (pre : List Call),
        w0.trace = exampleThread.world.trace ++ pre ∧
        (dlopen exampleHost (some "foo".toList) 0 exampleThread).2.world.trace =
          w0.trace ++ [Call.LoadLibraryW p] ∧
        (dlopen exampleHost (some "foo".toList) 0 exampleThread).1 =
          (exampleHost.LoadLibraryW p w0.os).1) := by
  refine ⟨⟨by decide, by decide⟩, by decide, ?_⟩
  obtain ⟨p, w0, pre, h1, _, _, h3⟩ :=
    dlopen_pin exampleHost (some "foo".toList) 0 exampleThread (by decide)
  exact ⟨p, w0, pre, h1, (h3 (by decide)).1, (h3 (by decide)).2.1⟩

theorem dlopen_native_loads (H : Host σ) (gm : Nat) (q0 : List Char) (w : World σ) :
    ∃ evs, (dlopen_native H gm q0 w).2.trace = w.trace ++ evs ∧
      ∀ q, Call.LoadLibraryW q ∈ evs → q = q0 := by
  refine ⟨_, dlopen_native_trace H gm q0 w, ?_⟩
  intro q hq
  split at hq
  · simp only [List.mem_cons, Call.LoadLibraryW.injEq, List.mem_singleton,
      List.not_mem_nil, or_false] at hq
    rcases hq with h | h
    · exact h
    · exact absurd h (by simp)
  · simpa using hq

/-- C17: the path `dlopen` hands to the native load is the resolved native path `p` itself
when the last component of `p` (from the last backslash on, or all of `p`) contains a `.`,
and `p ++ "."` otherwise; so the last component of every path `dlopen` gives to
`LoadLibraryW` contains a `.`. -/
theorem dlopen_load_trailing_dot (H : Host σ) (name : Option (List Char)) (flags : Nat)
    (t : Thread σ) (f : Frame σ) (p : List Char) :
    (((last_component p).contains '.' = true → add_trailing_dot p = p) ∧
      ((last_component p).contains '.' = false → add_trailing_dot p = p ++ ['.']) ∧
      (last_component (add_trailing_dot p)).contains '.' = true) ∧
    (f.real_filename.wide_win32_path = some p →
      ∃ evs, (dlopen_load H flags f).2.trace = f.world.trace ++ evs ∧
        ∀ q, Call.LoadLibraryW q ∈ evs → q = add_trailing_dot p) ∧
    (∃ evs, (dlopen H name flags t).2.world.trace = t.world.trace ++ evs ∧
      ∀ q, Call.LoadLibraryW q ∈ evs → (last_component q).contains '.' = true) := by
  refine ⟨⟨?_, ?_, add_trailing_dot_dotted p⟩, ?_, ?_⟩
  · intro h
    unfold add_trailing_dot
    rw [if_pos h]
  · intro h
    unfold add_trailing_dot
    rw [if_neg (by rw [h]; decide)]
  · intro hp
    have hn : native_wpath f = add_trailing_dot p := by
      simp [native_wpath, hp]
    unfold dlopen_load
    dsimp only
    rw [hn]
    split_ifs
    · exact ⟨[_], rfl, by simp⟩
    · obtain ⟨evs, he, hq⟩ := dlopen_native_loads H (gmheflags_of flags) (add_trailing_dot p)
        (f.world.call
          (.GetModuleHandleExW (gmheflags_of flags) (add_trailing_dot p))
          (H.GetModuleHandleExW (gmheflags_of flags) (add_trailing_dot p))).2
      refine ⟨Call.GetModuleHandleExW (gmheflags_of flags) (add_trailing_dot p) :: evs,
        by rw [he]; simp [World.call], ?_⟩
      intro q hm
      simp only [List.mem_cons] at hm
      rcases hm with h | h
      · exact absurd h (by simp)
      · exact hq q h
    · exact dlopen_native_loads H _ _ _
  · rw [dlopen_world]
    rcases dlopen_do_cases flags (beforeLoad_admits (gmheflags_of flags)) H name t.world with
      h | ⟨p0, w0, e, pre, hw0, hall⟩
    · obtain ⟨evs, he, hev⟩ := h
      refine ⟨evs, he, ?_⟩
      intro q hq
      have := hev _ hq
      simp [Call.beforeLoad] at this
    · obtain ⟨evs, he, hq⟩ := dlopen_native_loads H (gmheflags_of flags)
        (add_trailing_dot p0) w0
      refine ⟨pre ++ evs, by rw [e, he, hw0, List.append_assoc], ?_⟩
      intro q hm
      rcases List.mem_append.1 hm with h | h
      · have := hall _ h
        simp [Call.beforeLoad] at this
      · rw [hq q h]
        exact add_trailing_dot_dotted p0

/-- Witness of C17: `C:\bin\foo` is handed over as `C:\bin\foo.`, `C:\bin\bar.dll` as it is,
and on the fake host `dlopen ("foo", 0)` loads `C:\bin\foo.`. -/
theorem dlopen_load_trailing_dot_witness :
    ((last_component (fake_native "foo")).contains '.' = false ∧
      add_trailing_dot (fake_native "foo") = fake_native "foo" ++ ['.']) ∧
    ((last_component (fake_native "bar.dll")).contains '.' = true ∧
      add_trailing_dot (fake_native "bar.dll") = fake_native "bar.dll") ∧
    Call.LoadLibraryW (fake_native "foo.") ∈
      (dlopen exampleHost (some "foo".toList) 0 exampleThread).2.world.trace :=
  ⟨⟨by decide,
    (dlopen_load_trailing_dot exampleHost none 0 exampleThread
      { world := exampleThread.world, real_filename := path_conv.init, wpath := [], ret := 0 }
      (fake_native "foo")).1.2.1 (by decide)⟩,
   ⟨by decide,
    (dlopen_load_trailing_dot exampleHost none 0 exampleThread
      { world := exampleThread.world, real_filename := path_conv.init, wpath := [], ret := 0 }
      (fake_native "bar.dll")).1.1 (by decide)⟩,
   by decide⟩

/-! ## The message of a probe-only miss -/

/-- C15, the code at the failing input: on the fake host `dlopen ("nothere", RTLD_NOLOAD)`
with nothing loaded returns `NULL` and raises the flag, and the message it stores is the
text of whatever `errno` was before the call: `No error` for `errno = 0`, another text
for a left-over `ENOMEM`; `errno` itself is left as it was. -/
theorem dlopen_noload_stale_errno :
    (dlopen exampleHost (some "nothere".toList) RTLD_NOLOAD exampleThread).1 = 0 ∧
    (dlopen exampleHost (some "nothere".toList) RTLD_NOLOAD exampleThread).2.dl_error = 1 ∧
    (dlopen exampleHost (some "nothere".toList) RTLD_NOLOAD exampleThread).2.dl_buffer
      = "No error".toList ∧
    (dlopen exampleHost (some "nothere".toList) RTLD_NOLOAD staleThread).1 = 0 ∧
    (dlopen exampleHost (some "nothere".toList) RTLD_NOLOAD staleThread).2.dl_buffer
      = "Unknown error".toList ∧
    (dlopen exampleHost (some "nothere".toList) RTLD_NOLOAD staleThread).2.world.os.errno
      = ENOMEM ∧
    (dlopen exampleHost (some "nothere".toList) RTLD_NOLOAD staleThread).2.world.trace
      = [Call.GetModuleHandleExA 0 "nothere.".toList] := by
  decide

/-! ## The search directories of a name without a directory -/

theorem find_loaded_basename_quiet (H : Host σ) (have_suffix : Bool) (gm : Nat)
    (cands : List member) (w : World σ) :
    fs_searches (find_loaded_basename H have_suffix gm cands w).2.2 = fs_searches w :=
  (native_loads_of_quiet
    (trace_extends_mono isProbe_isQuiet (find_loaded_basename_probe H have_suffix gm cands w))).2

/-- C16: for every non-empty name without `/`, whenever `dlopen` proceeds to the file system
search, it searches with the directories enumerated from `LD_LIBRARY_PATH` (in their
order, possibly none) followed by `/usr/bin` and then `/usr/lib`. -/
theorem dlopen_searchdirs_no_dir (H : Host σ) (name : List Char) (flags : Nat) (w : World σ)
    (hne : name ≠ []) (hslash : '/' ∉ name)
    (hfs : fs_searches (dlopen_do H (some name) flags w).2 ≠ fs_searches w) :
    dlopen_do H (some name) flags w =
      dlopen_search H name flags
        { basenames :=
            (find_loaded_basename H (collect_basenames [] name name.length).2
              (gmheflags_of flags) (collect_basenames [] name name.length).1 w).2.1,
          searchdirs :=
            (H.envsearchpath "LD_LIBRARY_PATH".toList
              (find_loaded_basename H (collect_basenames [] name name.length).2
                (gmheflags_of flags) (collect_basenames [] name name.length).1 w).2.2.os).1 ++
            ["/usr/bin".toList, "/usr/lib".toList] }
        { world :=
            ((((find_loaded_basename H (collect_basenames [] name name.length).2
                (gmheflags_of flags) (collect_basenames [] name name.length).1 w).2.2.call
              (.add_envsearchpath "LD_LIBRARY_PATH".toList)
              (H.envsearchpath "LD_LIBRARY_PATH".toList)).2.log
              (.add_searchdir "/usr/bin".toList)).log (.add_searchdir "/usr/lib".toList)),
          real_filename := path_conv.init, wpath := [], ret := 0 } := by
  have h1 : ¬ ((some name : Option (List Char)) = none ∨ some name = some []) := by
    simp [hne]
  have hs := spot_basename_no_dir name hslash
  have hd : dlopen_do H (some name) flags w =
      if (find_loaded_basename H (collect_basenames [] name name.length).2
            (gmheflags_of flags) (collect_basenames [] name name.length).1 w).1 ≠ 0 ∨
          flag_set flags RTLD_NOLOAD = true then
        ((find_loaded_basename H (collect_basenames [] name name.length).2
            (gmheflags_of flags) (collect_basenames [] name name.length).1 w).1,
         (find_loaded_basename H (collect_basenames [] name name.length).2
            (gmheflags_of flags) (collect_basenames [] name name.length).1 w).2.2)
      else dlopen_find H name flags
        { basename_off := 0, baselen := name.length, have_dir := false }
        (find_loaded_basename H (collect_basenames [] name name.length).2
            (gmheflags_of flags) (collect_basenames [] name name.length).1 w).2.1
        (collect_basenames [] name name.length).2
        (find_loaded_basename H (collect_basenames [] name name.length).2
            (gmheflags_of flags) (collect_basenames [] name name.length).1 w).2.2 := by
    unfold dlopen_do
    rw [if_neg h1]
    simp only [Option.getD_some, hs, List.drop_zero, Bool.not_false, if_true]
  by_cases hp : (find_loaded_basename H (collect_basenames [] name name.length).2
      (gmheflags_of flags) (collect_basenames [] name name.length).1 w).1 ≠ 0 ∨
      flag_set flags RTLD_NOLOAD = true
  · exfalso
    apply hfs
    rw [hd, if_pos hp]
    exact find_loaded_basename_quiet H _ _ _ w
  · have hb : "/usr/bin".toList.take 8 = "/usr/bin".toList := by decide
    have hl : "/usr/lib".toList.take 8 = "/usr/lib".toList := by decide
    rw [hd, if_neg hp]
    unfold dlopen_find pathfinder.add_envsearchpath pathfinder.add_searchdir
    simp only [Bool.false_eq_true, if_false, hb, hl, List.nil_append, List.append_assoc,
      List.singleton_append]
    rfl

/-- Witness of C16: on the fake host, where `LD_LIBRARY_PATH` lists nothing, `dlopen ("foo", 0)`
searches `/usr/bin` and then `/usr/lib`. -/
theorem dlopen_searchdirs_no_dir_witness :
    ("foo".toList ≠ [] ∧ '/' ∉ "foo".toList ∧
      fs_searches (dlopen_do exampleHost (some "foo".toList) 0 exampleThread.world).2
        ≠ fs_searches exampleThread.world) ∧
    searchdirs_of (dlopen_do exampleHost (some "foo".toList) 0 exampleThread.world).2
      = ["/usr/bin".toList, "/usr/lib".toList] := by
  have h := dlopen_searchdirs_no_dir exampleHost "foo".toList 0 exampleThread.world
    (by decide) (by decide) (by decide)
  refine ⟨⟨by decide, by decide, by decide⟩, ?_⟩
  rw [h]
  decide

/-! ## First hit wins -/

theorem first_found_zero_iff (answers : List Nat) :
    first_found answers = 0 ↔ ∀ a ∈ answers, a = 0 := by
  induction answers with
  | nil => simp [first_found]
  | cons x xs ih =>
    by_cases hx : x = 0
    · subst hx
      simp only [first_found, List.find?_cons] at ih ⊢
      simpa using ih
    · simp [first_found, List.find?_cons, hx]

/-- C18: for every candidate list and every state of the loader, `find_loaded_basename`
returns what the loader reports for the first candidate in list order that it reports as
mapped, asks for the candidates up to that one and for none behind it, and returns `NULL`
exactly when the loader reports none of the candidates as mapped. -/
theorem find_loaded_basename_first (H : Host σ) (have_suffix : Bool) (gm : Nat)
    (cands : List member) (w : World σ) :
    (find_loaded_basename H have_suffix gm cands w).1 =
      first_found (loader_answers H gm (cands.map (probe_name have_suffix)) w.os) ∧
    (find_loaded_basename H have_suffix gm cands w).2.2.trace =
      w.trace ++ ((cands.map (probe_name have_suffix)).take
        (asked (loader_answers H gm (cands.map (probe_name have_suffix)) w.os))).map
          (Call.GetModuleHandleExA gm) ∧
    ((find_loaded_basename H have_suffix gm cands w).1 = 0 ↔
      ∀ a ∈ loader_answers H gm (cands.map (probe_name have_suffix)) w.os, a = 0) := by
  have key : (find_loaded_basename H have_suffix gm cands w).1 =
        first_found (loader_answers H gm (cands.map (probe_name have_suffix)) w.os) ∧
      (find_loaded_basename H have_suffix gm cands w).2.2.trace =
        w.trace ++ ((cands.map (probe_name have_suffix)).take
          (asked (loader_answers H gm (cands.map (probe_name have_suffix)) w.os))).map
            (Call.GetModuleHandleExA gm) := by
    induction cands generalizing w with
    | nil => simp [find_loaded_basename, loader_answers, first_found]
    | cons bn rest ih =>
      have hn : probe_name have_suffix bn =
          cstr (if !have_suffix then bn.poke bn.stringlength '.' else bn).buffer := rfl
      simp only [find_loaded_basename, List.map_cons, loader_answers, ← hn]
      by_cases hz : (H.GetModuleHandleExA gm (probe_name have_suffix bn) w.os).1 = 0
      · have hc : ¬ (w.call (.GetModuleHandleExA gm (probe_name have_suffix bn))
            (H.GetModuleHandleExA gm (probe_name have_suffix bn))).1 ≠ 0 := by
          simpa [World.call] using hz
        rw [if_neg hc]
        obtain ⟨i1, i2⟩ := ih (w.call (.GetModuleHandleExA gm (probe_name have_suffix bn))
            (H.GetModuleHandleExA gm (probe_name have_suffix bn))).2
        refine ⟨?_, ?_⟩
        · rw [i1]
          simp [first_found, List.find?_cons, hz, World.call]
        · rw [i2]
          simp [asked, List.takeWhile_cons, hz, World.call]
      · have hc : (w.call (.GetModuleHandleExA gm (probe_name have_suffix bn))
            (H.GetModuleHandleExA gm (probe_name have_suffix bn))).1 ≠ 0 := hz
        rw [if_pos hc]
        refine ⟨?_, ?_⟩
        · simp [first_found, List.find?_cons, hz, World.call]
        · simp [asked, List.takeWhile_cons, hz, World.call]
  exact ⟨key.1, key.2, by rw [key.1]; exact first_found_zero_iff _⟩

/-- C19: for the wildcard handle `RTLD_DEFAULT` and every successful enumeration of the
modules, `dlsym` returns the address `GetProcAddress` yields for the first module in
enumeration order for which it is not `NULL`, asks the modules up to that one and none
behind it, and returns `NULL`, with the error flag raised, exactly when the lookup is
`NULL` for every module. -/
theorem dlsym_default_first (H : Host σ) (symbol : List Char) (t : Thread σ) (status : Nat)
    (mods : List Nat)
    (hbuf : (H.RtlCreateQueryDebugBuffer t.world.os).1 = true)
    (henum : (H.RtlQueryProcessDebugInformation
        (H.RtlCreateQueryDebugBuffer t.world.os).2).1 = (status, true, mods)) :
    (dlsym H RTLD_DEFAULT symbol t).1 =
      first_found (lookup_answers H symbol mods
        (H.RtlQueryProcessDebugInformation (H.RtlCreateQueryDebugBuffer t.world.os).2).2) ∧
    (dlsym H RTLD_DEFAULT symbol t).2.world.trace =
      t.world.trace ++
        [Call.RtlCreateQueryDebugBuffer, Call.RtlQueryProcessDebugInformation] ++
        (mods.take (asked (lookup_answers H symbol mods
          (H.RtlQueryProcessDebugInformation
            (H.RtlCreateQueryDebugBuffer t.world.os).2).2))).map
          (fun m => Call.GetProcAddress m symbol) ++
        [Call.RtlDestroyQueryDebugBuffer] ∧
    ((dlsym H RTLD_DEFAULT symbol t).1 = 0 ↔
      ∀ a ∈ lookup_answers H symbol mods
        (H.RtlQueryProcessDebugInformation (H.RtlCreateQueryDebugBuffer t.world.os).2).2,
        a = 0) ∧
    ((dlsym H RTLD_DEFAULT symbol t).1 = 0 → (dlsym H RTLD_DEFAULT symbol t).2.dl_error = 1) := by
  have loop : ∀ (ms : List Nat) (w : World σ),
      (dlsym_modules H symbol ms w).1 = first_found (lookup_answers H symbol ms w.os) ∧
      (dlsym_modules H symbol ms w).2.trace =
        w.trace ++ (ms.take (asked (lookup_answers H symbol ms w.os))).map
          (fun m => Call.GetProcAddress m symbol) := by
    intro ms
    induction ms with
    | nil => intro w; simp [dlsym_modules, lookup_answers, first_found]
    | cons m rest ih =>
      intro w
      simp only [dlsym_modules, lookup_answers]
      by_cases hz : (H.GetProcAddress m symbol w.os).1 = 0
      · have hc : ¬ (w.call (.GetProcAddress m symbol) (H.GetProcAddress m symbol)).1 ≠ 0 := by
          simpa [World.call] using hz
        rw [if_neg hc]
        obtain ⟨i1, i2⟩ := ih (w.call (.GetProcAddress m symbol) (H.GetProcAddress m symbol)).2
        refine ⟨?_, ?_⟩
        · rw [i1]
          simp [first_found, List.find?_cons, hz, World.call]
        · rw [i2]
          simp [asked, List.takeWhile_cons, hz, World.call]
      · have hc : (w.call (.GetProcAddress m symbol) (H.GetProcAddress m symbol)).1 ≠ 0 := hz
        rw [if_pos hc]
        refine ⟨?_, ?_⟩
        · simp [first_found, List.find?_cons, hz, World.call]
        · simp [asked, List.takeWhile_cons, hz, World.call]
  have hb : (t.world.call .RtlCreateQueryDebugBuffer H.RtlCreateQueryDebugBuffer).1 = true :=
    hbuf
  have hq1 : ((t.world.call .RtlCreateQueryDebugBuffer H.RtlCreateQueryDebugBuffer).2.call
      .RtlQueryProcessDebugInformation H.RtlQueryProcessDebugInformation).1
      = (status, true, mods) := henum
  obtain ⟨l1, l2⟩ := loop mods
    ((t.world.call .RtlCreateQueryDebugBuffer H.RtlCreateQueryDebugBuffer).2.call
      .RtlQueryProcessDebugInformation H.RtlQueryProcessDebugInformation).2
  have hret : (dlsym H RTLD_DEFAULT symbol t).1 =
      (dlsym_modules H symbol mods
        ((t.world.call .RtlCreateQueryDebugBuffer H.RtlCreateQueryDebugBuffer).2.call
          .RtlQueryProcessDebugInformation H.RtlQueryProcessDebugInformation).2).1 := by
    unfold dlsym
    simp only [if_true, hb, hq1, Bool.not_true, Bool.false_eq_true, if_false]
    split_ifs <;> simp_all
  have htr : (dlsym H RTLD_DEFAULT symbol t).2.world.trace =
      (dlsym_modules H symbol mods
        ((t.world.call .RtlCreateQueryDebugBuffer H.RtlCreateQueryDebugBuffer).2.call
          .RtlQueryProcessDebugInformation H.RtlQueryProcessDebugInformation).2).2.trace ++
        [Call.RtlDestroyQueryDebugBuffer] := by
    unfold dlsym
    simp only [if_true, hb, hq1, Bool.not_true, Bool.false_eq_true, if_false]
    split_ifs <;> simp [World.update, World.log, set_dl_error]
  refine ⟨?_, ?_, ?_, fun h => ((dlsym_error_slot H RTLD_DEFAULT symbol t).1 h).1⟩
  · rw [hret, l1]
    rfl
  · rw [htr, l2]
    simp [World.call]
  · rw [hret, l1]
    exact first_found_zero_iff _

/-- Witness of C19: on the fake host with two modules loaded, `dlsym (RTLD_DEFAULT, "f")`
asks the first module only and returns its answer. -/
theorem dlsym_default_first_witness :
    ((exampleHost.RtlCreateQueryDebugBuffer loadedThread.world.os).1 = true ∧
      (exampleHost.RtlQueryProcessDebugInformation
        (exampleHost.RtlCreateQueryDebugBuffer loadedThread.world.os).2).1
        = (0, true, [2, 3])) ∧
    (dlsym exampleHost RTLD_DEFAULT "f".toList loadedThread).1 = 2001 ∧
    (dlsym exampleHost RTLD_DEFAULT "f".toList loadedThread).2.world.trace =
      [Call.RtlCreateQueryDebugBuffer, Call.RtlQueryProcessDebugInformation,
       Call.GetProcAddress 2 "f".toList, Call.RtlDestroyQueryDebugBuffer] := by
  have h := dlsym_default_first exampleHost "f".toList loadedThread 0 [2, 3]
    (by decide) (by decide)
  refine ⟨⟨by decide, by decide⟩, ?_, ?_⟩
  · rw [h.1]; decide
  · rw [h.2.1]; decide

/-! ## The allocator -/

theorem chunksize_eq : chunksize = 65536 := rfl

theorem alloc_need_bounds (need : Nat) (h : need ≤ chunksize) :
    1 ≤ alloc_need need ∧ alloc_need need ≤ chunksize := by
  have hc := chunksize_eq
  unfold alloc_need
  split <;> omega

theorem align8_least (n : Nat) (h : 1 ≤ n) :
    align8 n % 8 = 0 ∧ n ≤ align8 n ∧ align8 n < n + 8 := by
  unfold align8
  omega

theorem alloc_step (a : tmp_pathbuf_allocator) (blocks : List block) (need : Nat)
    (hinv : alloc_inv a blocks) (hneed : need ≤ chunksize) :
    ∃ blk a1, a.alloc need = some (blk, a1) ∧ alloc_inv a1 (blocks ++ [blk]) ∧
      blk.size = alloc_need need ∧ a1.chunk = blk.chunk ∧
      a1.freemem = blk.offset + align8 blk.size ∧ a1.freesize ≤ chunksize ∧
      a.clamps need = false := by
  obtain ⟨h1, h2, h3, h4, h5⟩ := hinv
  obtain ⟨hn1, hn2⟩ := alloc_need_bounds need hneed
  obtain ⟨ha1, ha2, ha3⟩ := align8_least (alloc_need need) hn1
  have hc := chunksize_eq
  obtain ⟨c, m, F⟩ := a
  simp only at h1 h2 h3 h5
  by_cases hsw : alloc_need need > F
  · have hfit : (tmp_pathbuf_allocator.mk c m F).fit need =
        { chunk := c + 1, freemem := 0, freesize := chunksize } := by
      simp [tmp_pathbuf_allocator.fit, hsw]
    have hle : ¬ align8 (alloc_need need) > chunksize := by omega
    refine ⟨{ chunk := c + 1, offset := 0, size := alloc_need need },
      { chunk := c + 1, freemem := 0 + align8 (alloc_need need),
        freesize := chunksize - align8 (alloc_need need) }, ?_, ?_, rfl, rfl, rfl, ?_, ?_⟩
    · simp only [tmp_pathbuf_allocator.alloc, hfit, if_neg (show ¬ alloc_need need > chunksize
        by omega), if_neg hle]
    · refine ⟨by simp only; omega, by simp only; omega, by simp only; omega, ?_, ?_⟩
      · rw [List.pairwise_append]
        refine ⟨h4, List.pairwise_singleton _ _, ?_⟩
        intro b hb x hx
        rw [List.mem_singleton.1 hx]
        intro he
        have := (h5 b hb).1
        simp only at he
        omega
      · intro b hb
        rcases List.mem_append.1 hb with h | h
        · obtain ⟨q1, q2, q3, q4⟩ := h5 b h
          exact ⟨by simp only; omega, fun he => by simp only at he; omega, q3, q4⟩
        · rw [List.mem_singleton.1 h]
          exact ⟨le_refl _, fun _ => by simp only; omega, by simp, by simp only; omega⟩
    · simp only
      omega
    · simp only [tmp_pathbuf_allocator.clamps, hfit, decide_eq_false_iff_not]
      exact hle
  · have hfit : (tmp_pathbuf_allocator.mk c m F).fit need =
        { chunk := c, freemem := m, freesize := F } := by
      simp [tmp_pathbuf_allocator.fit, hsw]
    have hle : ¬ align8 (alloc_need need) > F := by omega
    refine ⟨{ chunk := c, offset := m, size := alloc_need need },
      { chunk := c, freemem := m + align8 (alloc_need need),
        freesize := F - align8 (alloc_need need) }, ?_, ?_, rfl, rfl, rfl, ?_, ?_⟩
    · simp only [tmp_pathbuf_allocator.alloc, hfit, if_neg (show ¬ alloc_need need > chunksize
        by omega), if_neg hle]
    · refine ⟨by simp only; omega, by simp only; omega, by simp only; omega, ?_, ?_⟩
      · rw [List.pairwise_append]
        refine ⟨h4, List.pairwise_singleton _ _, ?_⟩
        intro b hb x hx
        rw [List.mem_singleton.1 hx]
        intro he
        exact (h5 b hb).2.1 he
      · intro b hb
        rcases List.mem_append.1 hb with h | h
        · obtain ⟨q1, q2, q3, q4⟩ := h5 b h
          exact ⟨q1, fun he => by have := q2 he; simp only; omega, q3, q4⟩
        · rw [List.mem_singleton.1 h]
          exact ⟨le_refl _, fun _ => by simp only; omega, h2, by simp only; omega⟩
    · simp only
      omega
    · simp only [tmp_pathbuf_allocator.clamps, hfit, decide_eq_false_iff_not]
      exact hle

theorem allocs_inv (needs : List Nat) (a : tmp_pathbuf_allocator) (blocks : List block)
    (hinv : alloc_inv a blocks) (hneeds : ∀ r ∈ needs, r ≤ chunksize) :
    ∃ bs a1, a.allocs needs = some (bs, a1) ∧ alloc_inv a1 (blocks ++ bs) := by
  induction needs generalizing a blocks with
  | nil => exact ⟨[], a, rfl, by simpa using hinv⟩
  | cons n ns ih =>
    obtain ⟨blk, a1, e1, i1, _⟩ := alloc_step a blocks n hinv (hneeds n (by simp))
    obtain ⟨bs, a2, e2, i2⟩ := ih a1 (blocks ++ [blk]) i1 (fun r hr => hneeds r (by simp [hr]))
    refine ⟨blk :: bs, a2, ?_, by simpa using i2⟩
    simp only [tmp_pathbuf_allocator.allocs, e1, e2]

theorem alloc_inv_init : alloc_inv tmp_pathbuf_allocator.init [] := by
  refine ⟨rfl, rfl, by decide, List.Pairwise.nil, ?_⟩
  intro b hb
  simp at hb

theorem alloc_exact (a : tmp_pathbuf_allocator) (need : Nat) (blk : block)
    (a1 : tmp_pathbuf_allocator) (h8 : a.freesize % 8 = 0)
    (hneed : need ≤ chunksize) (he : a.alloc need = some (blk, a1)) :
    (alloc_need need ≤ a.freesize →
      blk.chunk = a.chunk ∧ blk.offset = a.freemem ∧
      align8 (alloc_need need) ≤ a.freesize ∧
      a1.freesize = a.freesize - align8 (alloc_need need)) ∧
    (a.freesize < alloc_need need →
      blk.chunk = a.chunk + 1 ∧ blk.offset = 0 ∧
      align8 (alloc_need need) ≤ chunksize ∧
      a1.freesize = chunksize - align8 (alloc_need need)) := by
  obtain ⟨hn1, hn2⟩ := alloc_need_bounds need hneed
  obtain ⟨ha1, ha2, ha3⟩ := align8_least (alloc_need need) hn1
  have hc := chunksize_eq
  have hnot : ¬ alloc_need need > chunksize := by omega
  simp only [tmp_pathbuf_allocator.alloc, if_neg hnot, Option.some.injEq, Prod.mk.injEq] at he
  obtain ⟨hb, ha⟩ := he
  constructor
  · intro hfits
    have hfit : a.fit need = a := by
      simp only [tmp_pathbuf_allocator.fit, if_neg (show ¬ alloc_need need > a.freesize by omega)]
    have hr : ¬ align8 (alloc_need need) > a.freesize := by omega
    rw [hfit] at hb ha
    rw [if_neg hr] at ha
    subst hb ha
    exact ⟨rfl, rfl, by omega, rfl⟩
  · intro hsw
    have hfit : a.fit need = { chunk := a.chunk + 1, freemem := 0, freesize := chunksize } := by
      simp only [tmp_pathbuf_allocator.fit, if_pos (show alloc_need need > a.freesize by omega)]
    have hr : ¬ align8 (alloc_need need) > chunksize := by omega
    rw [hfit] at hb ha
    simp only [if_neg hr] at ha
    subst hb ha
    exact ⟨rfl, rfl, by omega, rfl⟩

/-- C20: for every sequence of `alloc` requests of at most the chunk size each (a request
of 0 counting as 1), followed by one more such request: no call ends in `api_fatal`; the
remaining size stays a multiple of 8 and at most the chunk size; a request that fits
into the remaining size is served at the cursor of the current buffer, any other at the
start of a fresh buffer, and in both cases the rounded request is at most the size
available and the remaining size is reduced by exactly the rounded request (the second
test `need > freesize_` is never true, the remaining size is never set to zero by it);
the cursor ends up the least multiple of 8 that is not below the request behind the
start of the block; every block returned starts at a multiple of 8 and lies wholly
inside its buffer; and no two blocks overlap. -/
theorem alloc_sequence (needs : List Nat) (need : Nat)
    (hneeds : ∀ r ∈ needs, r ≤ chunksize) (hneed : need ≤ chunksize) :
    ∃ blocks a blk a1,
      tmp_pathbuf_allocator.init.allocs needs = some (blocks, a) ∧
      a.alloc need = some (blk, a1) ∧
      (a1.freesize % 8 = 0 ∧ a1.freesize ≤ chunksize) ∧
      blk.size = alloc_need need ∧
      (alloc_need need ≤ a.freesize →
        blk.chunk = a.chunk ∧ blk.offset = a.freemem ∧
        align8 (alloc_need need) ≤ a.freesize ∧
        a1.freesize = a.freesize - align8 (alloc_need need)) ∧
      (a.freesize < alloc_need need →
        blk.chunk = a.chunk + 1 ∧ blk.offset = 0 ∧
        align8 (alloc_need need) ≤ chunksize ∧
        a1.freesize = chunksize - align8 (alloc_need need)) ∧
      (a1.chunk = blk.chunk ∧ a1.freemem = blk.offset + align8 blk.size ∧
        align8 blk.size % 8 = 0 ∧ blk.size ≤ align8 blk.size ∧ align8 blk.size < blk.size + 8) ∧
      (∀ b ∈ blocks ++ [blk], b.offset % 8 = 0 ∧ b.offset + b.size ≤ chunksize) ∧
      (blocks ++ [blk]).Pairwise block.before ∧
      a.clamps need = false := by
  obtain ⟨blocks, a, e1, i1⟩ := allocs_inv needs tmp_pathbuf_allocator.init [] alloc_inv_init hneeds
  rw [List.nil_append] at i1
  obtain ⟨blk, a1, e2, i2, hs, hch, hm, hF, hcl⟩ := alloc_step a blocks need i1 hneed
  obtain ⟨hn1, _⟩ := alloc_need_bounds need hneed
  have hx := alloc_exact a need blk a1 i1.1 hneed e2
  refine ⟨blocks, a, blk, a1, e1, e2, ⟨i2.1, hF⟩, hs, hx.1, hx.2, ⟨hch, hm, ?_⟩, ?_,
    i2.2.2.2.1, hcl⟩
  · rw [hs]
    exact align8_least _ hn1
  · intro b hb
    exact (i2.2.2.2.2 b hb).2.2

/-- Witness of C20: the requests 0, 5, 65536 and then 8: the first two blocks share the
first buffer at the offsets 0 and 8, the third and the fourth need a fresh buffer each. -/
theorem alloc_sequence_witness :
    ((∀ r ∈ [0, 5, 65536], r ≤ chunksize) ∧ 8 ≤ chunksize) ∧
    tmp_pathbuf_allocator.init.allocs [0, 5, 65536, 8] =
      some ([{ chunk := 1, offset := 0, size := 1 }, { chunk := 1, offset := 8, size := 5 },
             { chunk := 2, offset := 0, size := 65536 }, { chunk := 3, offset := 0, size := 8 }],
            { chunk := 3, freemem := 8, freesize := 65528 }) ∧
    ∃ blocks a blk a1,
      tmp_pathbuf_allocator.init.allocs [0, 5, 65536] = some (blocks, a) ∧
      a.alloc 8 = some (blk, a1) ∧
      (a1.freesize % 8 = 0 ∧ a1.freesize ≤ chunksize) ∧
      blk.size = alloc_need 8 ∧
      (alloc_need 8 ≤ a.freesize →
        blk.chunk = a.chunk ∧ blk.offset = a.freemem ∧
        align8 (alloc_need 8) ≤ a.freesize ∧
        a1.freesize = a.freesize - align8 (alloc_need 8)) ∧
      (a.freesize < alloc_need 8 →
        blk.chunk = a.chunk + 1 ∧ blk.offset = 0 ∧
        align8 (alloc_need 8) ≤ chunksize ∧
        a1.freesize = chunksize - align8 (alloc_need 8)) ∧
      (a1.chunk = blk.chunk ∧ a1.freemem = blk.offset + align8 blk.size ∧
        align8 blk.size % 8 = 0 ∧ blk.size ≤ align8 blk.size ∧ align8 blk.size < blk.size + 8) ∧
      (∀ b ∈ blocks ++ [blk], b.offset % 8 = 0 ∧ b.offset + b.size ≤ chunksize) ∧
      (blocks ++ [blk]).Pairwise block.before ∧
      a.clamps 8 = false :=
  ⟨⟨by decide, by decide⟩, by decide,
    alloc_sequence [0, 5, 65536] 8 (by decide) (by decide)⟩


/-! ## Reopening with a coherent loader -/

theorem exampleHost_not_coherent (mapped : FakeOS → List Char → Nat) :
    ¬ coherent exampleHost mapped := by
  intro hc
  obtain ⟨p, hp, hm⟩ := hc.found "/usr/bin".toList "link".toList 0
    exampleThread.world.os (by decide) (by decide) (by decide)
  have e : p = fake_native "bar.dll" := (Option.some.inj hp).symm
  rw [e] at hm
  exact absurd hm (by decide)

end Dlfcn
